import Mathlib

/-!
# Verification development for `server.js` (cached Twitch clips player)

A shallow embedding of the cache index (`getExistingClips`), the downloader
(`downloadClipLocally`), the reconciliation handler
(`GET /popular-clips/:username`) and the retention sweep (`POST /cleanup`).

JavaScript strings are sequences of UTF-16 code units; they are embedded as
lists of natural numbers (one number per code unit).  The regular expressions
of the source carry no `u` flag, so they work on code units as well.
-/

namespace TwitchClips

/-! ## Strings -/

/-- JavaScript string: the list of its UTF-16 code units. -/
abbrev JSString := List Nat

/-- Code units of a Lean string literal (used for the ASCII constants of the source). -/
def str (s : String) : JSString := s.toList.map Char.toNat

/-- Code unit of the hyphen `-`. -/
def hyphen : Nat := 45
/-- Code unit of the underscore `_`. -/
def underscore : Nat := 95
/-- Code unit of the space character. -/
def space : Nat := 32
/-- Code unit of the dot `.`. -/
def dot : Nat := 46
/-- Code unit of the slash `/`. -/
def slash : Nat := 47
/-- Code unit of the backslash. -/
def backslash : Nat := 92

/-- Regex class `[a-zA-Z0-9]`. -/
def isAlnum (c : Nat) : Bool :=
  (97 ≤ c && c ≤ 122) || (65 ≤ c && c ≤ 90) || (48 ≤ c && c ≤ 57)

/-- Regex class `\s` of ECMAScript (white space and line terminators); `String.prototype.trim`
strips exactly the same code units. -/
def isWs (c : Nat) : Bool :=
  (9 ≤ c && c ≤ 13) || c == 32 || c == 0xA0 || c == 0x1680 ||
  (0x2000 ≤ c && c ≤ 0x200A) || c == 0x2028 || c == 0x2029 || c == 0x202F ||
  c == 0x205F || c == 0x3000 || c == 0xFEFF

/-- Regex class `[a-zA-Z0-9\s\-_]`: the code units that `/[^a-zA-Z0-9\s\-_]/g` does not match. -/
def isSafeChar (c : Nat) : Bool :=
  isAlnum c || isWs c || c == hyphen || c == underscore

/-- Regex class `[a-zA-Z0-9\-_]`: the code units that the sanitizer keeps as they are. -/
def isWordChar (c : Nat) : Bool :=
  isAlnum c || c == hyphen || c == underscore

/-- Worker of `collapseWs`; `inRun` says that the previous code unit was white space. -/
def collapseWsAux : Bool → JSString → JSString
  | _, [] => []
  | inRun, c :: cs =>
    if isWs c then
      if inRun then collapseWsAux true cs else space :: collapseWsAux true cs
    else c :: collapseWsAux false cs

/-- Embedding of `.replace(/\s+/g, ' ')`: every maximal run of white space becomes one space. -/
def collapseWs (s : JSString) : JSString := collapseWsAux false s

/-- Embedding of `.substring(0, n)`. -/
def substring0 (n : Nat) (s : JSString) : JSString := s.take n

/-- Embedding of `.trim()`. -/
def trim (s : JSString) : JSString :=
  ((s.dropWhile isWs).reverse.dropWhile isWs).reverse

/-- Embedding of `.replace(/\s/g, '_')`. -/
def wsToUnderscore (s : JSString) : JSString :=
  s.map (fun c => if isWs c then underscore else c)

/-- Embedding of `.replace(/_/g, ' ')`. -/
def underscoreToSpace (s : JSString) : JSString :=
  s.map (fun c => if c == underscore then space else c)

/-- Embedding of `s.replace(pat, rep)` with a string pattern: only the first occurrence of
`pat` is replaced (the replacements used by the source contain no `$`). -/
def replaceFirst (pat rep : JSString) : JSString → JSString
  | [] => if pat.isEmpty then rep else []
  | c :: cs =>
    if pat.isPrefixOf (c :: cs) then rep ++ (c :: cs).drop pat.length
    else c :: replaceFirst pat rep cs

/-- Worker of `split`: `cur` holds the code units of the current segment, reversed. -/
def splitAux (sep : Nat) : JSString → JSString → List JSString
  | cur, [] => [cur.reverse]
  | cur, c :: cs =>
    if c == sep then cur.reverse :: splitAux sep [] cs else splitAux sep (c :: cur) cs

/-- Embedding of `s.split(sep)` for a separator of one code unit. -/
def split (sep : Nat) (s : JSString) : List JSString := splitAux sep [] s

/-- Embedding of `s.endsWith(suffix)`. -/
def endsWith (s suffix : JSString) : Bool := suffix.isSuffixOf s

/-- Embedding of `s.startsWith(pre)`. -/
def startsWith (s pre : JSString) : Bool := pre.isPrefixOf s

/-- The extension `.mp4`. -/
def mp4Ext : JSString := [dot, 109, 112, 52]

/-! ## Downloader: file naming -/

/-- The `safeTitle` computed at the top of `downloadClipLocally`. -/
def safeTitle (title : JSString) : JSString :=
  wsToUnderscore (trim (substring0 30 (collapseWs (title.filter isSafeChar))))

/-- The `baseFilename` of `downloadClipLocally`: id, hyphen, sanitized title. -/
def baseFilename (id title : JSString) : JSString :=
  id ++ [hyphen] ++ safeTitle title

/-- Name of the file that the download of a clip produces: `baseFilename` with the extension
that the output template `%(ext)s` resolves to under `--merge-output-format mp4`. -/
def clipFilename (id title : JSString) : JSString :=
  baseFilename id title ++ mp4Ext

/-- The `clipId` that `getExistingClips` extracts from a file name: `file.split('-')[0]`. -/
def parseClipId (file : JSString) : JSString :=
  (split hyphen file).headD []

/-- The `titlePart` that `getExistingClips` extracts from a file name. -/
def parseTitle (file : JSString) : JSString :=
  underscoreToSpace
    (replaceFirst mp4Ext [] (replaceFirst (parseClipId file ++ [hyphen]) [] file))

/-! ## Data model -/

/-- Candidate clip, as built by `getPopularClips` from the upstream answer.  `created` is the
instant (milliseconds since the epoch) that the time stamp string denotes; the handler only
copies `duration`, `views` and `created`. -/
structure Clip where
  id : JSString
  title : JSString
  url : JSString
  creator : JSString
  duration : Nat
  views : Nat
  created : Int
deriving DecidableEq, Repr

/-- Element of the `clips` array of a response.  Fields that an object of the source does not
carry are `none`: a record of the cache scan has no `url`, a downloaded record has no `cached`. -/
structure ClipRecord where
  id : JSString
  title : JSString
  url : Option JSString
  creator : JSString
  duration : Nat
  views : Nat
  localFile : JSString
  localUrl : JSString
  created : Int
  cached : Option Bool
deriving DecidableEq, Repr

/-- One entry of the directory `CLIPS_DIR`, with the two time stamps the source reads
(milliseconds since the epoch) and whether `fs.statSync` / `fs.unlinkSync` throw on it. -/
structure FileEntry where
  name : JSString
  birthtime : Int
  mtime : Int
  statFails : Bool
  unlinkFails : Bool
deriving DecidableEq, Repr

/-- State of the directory `CLIPS_DIR`: its entries in the order `fs.readdirSync` lists them,
and whether the directory can be listed at all. -/
structure Disk where
  readable : Bool
  files : List FileEntry
deriving DecidableEq, Repr

/-- Well-formed directory: no two entries share a name. -/
def Disk.WF (d : Disk) : Prop := (d.files.map FileEntry.name).Nodup

instance (d : Disk) : Decidable d.WF :=
  inferInstanceAs (Decidable (d.files.map FileEntry.name).Nodup)

/-- Embedding of `fs.readdirSync(CLIPS_DIR)`; `none` when it throws. -/
def readdirSync (d : Disk) : Option (List JSString) :=
  if d.readable then some (d.files.map FileEntry.name) else none

/-- Embedding of `fs.statSync(path.join(CLIPS_DIR, file))`; `none` when it throws (no such
entry, or the entry cannot be examined). -/
def statSync (d : Disk) (file : JSString) : Option FileEntry :=
  match d.files.find? (fun f => f.name == file) with
  | some f => if f.statFails then none else some f
  | none => none

/-- Embedding of `fs.unlinkSync(path.join(CLIPS_DIR, file))`; `none` when it throws. -/
def unlinkSync (d : Disk) (file : JSString) : Option Disk :=
  match d.files.find? (fun f => f.name == file) with
  | some f =>
    if f.unlinkFails then none
    else some { d with files := d.files.filter (fun g => g.name != file) }
  | none => none

/-- How a run of the external program ends, as `downloadClipLocally` observes it: the `close`
event with the exit code (`none` when a signal ended the process), the `error` event, or an
exception thrown while the promise executor runs (the promise is then rejected). -/
inductive ProcResult where
  | close (code : Option Int)
  | error
  | threw
deriving DecidableEq, Repr

/-- What the handlers take from outside the file.  `VIDEO_URL_PATH` is the configured
constant.  `encodeURIComponent` is the built-in; it is total on file names, which
`readdirSync` decodes from UTF-8 and which hold no lone surrogate.  `getPopularClips` stands for
the function of that name, whose body is a sequence of network calls: it either throws
(`Except.error` carries the message) or returns the candidate list; its arguments are username,
limit, period, clientId, clientSecret.  `ytDlp` stands for the external program started by
`spawn`; its arguments are the output template relative to `CLIPS_DIR` and the clip URL, and it
may change the directory in any way. -/
structure Env where
  VIDEO_URL_PATH : JSString
  encodeURIComponent : JSString → JSString
  getPopularClips : JSString → JSString → JSString → JSString → JSString →
    Except JSString (List Clip)
  ytDlp : JSString → JSString → Disk → ProcResult × Disk

/-! ## Cache index -/

/-- The record that `getExistingClips` builds for the file `file` with the stats `stats`. -/
def cachedRecord (env : Env) (file : JSString) (stats : FileEntry) : ClipRecord :=
  { id := parseClipId file
    title := parseTitle file
    url := none
    creator := str "Cached"
    duration := 30
    views := 0
    localFile := file
    localUrl := env.VIDEO_URL_PATH ++ [slash] ++ env.encodeURIComponent file
    created := stats.birthtime
    cached := some true }

/-- Order of the comparator `(a, b) => new Date(b.created) - new Date(a.created)`: `a` may
stand before `b` when it is not older. -/
def newestFirst (a b : ClipRecord) : Prop := b.created ≤ a.created

instance : DecidableRel newestFirst :=
  fun a b => inferInstanceAs (Decidable (b.created ≤ a.created))

instance : IsTotal ClipRecord newestFirst := ⟨fun a b => by unfold newestFirst; exact le_total _ _⟩

instance : IsTrans ClipRecord newestFirst :=
  ⟨fun a b c hab hbc => by unfold newestFirst at *; exact le_trans hbc hab⟩

/-- Embedding of the `map` callback of `getExistingClips` over all `.mp4` names; `none` as soon
as one `fs.statSync` throws. -/
def scanFiles (env : Env) (d : Disk) : List JSString → Option (List ClipRecord)
  | [] => some []
  | file :: rest =>
    match statSync d file with
    | none => none
    | some stats =>
      match scanFiles env d rest with
      | none => none
      | some recs => some (cachedRecord env file stats :: recs)

/-- Embedding of `getExistingClips`.  `Array.prototype.sort` is stable, so is
`List.insertionSort`; every thrown error is caught and yields the empty array. -/
def getExistingClips (env : Env) (d : Disk) : List ClipRecord :=
  match readdirSync d with
  | none => []
  | some files =>
    match scanFiles env d (files.filter (fun f => endsWith f mp4Ext)) with
    | none => []
    | some recs => recs.insertionSort newestFirst

/-! ## Retention sweep -/

/-- The `ageHours` of the cleanup handler: `(Date.now() - stats.mtime.getTime()) / (1000 * 60 * 60)`,
as an exact quotient.  Both time values are integers; the floating point quotient is the
correctly rounded exact one, rounding is monotone, 48 is representable and the least exact
quotient above 48 exceeds it by `1 / 3600000`, so the test `ageHours > 48` has the same outcome. -/
def ageHours (now mtime : Int) : ℚ := ((now - mtime : Int) : ℚ) / (1000 * 60 * 60)

/-- Response of `POST /cleanup`: `{ success: true, deletedFiles }` or status 500. -/
inductive CleanupResponse where
  | ok (deletedFiles : Nat)
  | serverError
deriving DecidableEq, Repr

/-- The `for` loop of the cleanup handler over the names `readdirSync` returned; the second
component is `none` when a file system call threw. -/
def cleanupLoop (now : Int) : List JSString → Disk → Nat → Disk × Option Nat
  | [], d, deletedCount => (d, some deletedCount)
  | file :: rest, d, deletedCount =>
    if endsWith file mp4Ext then
      match statSync d file with
      | none => (d, none)
      | some stats =>
        if ageHours now stats.mtime > 48 then
          match unlinkSync d file with
          | none => (d, none)
          | some d' => cleanupLoop now rest d' (deletedCount + 1)
        else cleanupLoop now rest d deletedCount
    else cleanupLoop now rest d deletedCount

/-- Embedding of the handler of `POST /cleanup` at the time `now = Date.now()`: the directory it
leaves and the response it sends. -/
def cleanup (now : Int) (d : Disk) : Disk × CleanupResponse :=
  match readdirSync d with
  | none => (d, .serverError)
  | some files =>
    match cleanupLoop now files d 0 with
    | (d', some deletedCount) => (d', .ok deletedCount)
    | (d', none) => (d', .serverError)

/-- The files the sweep is meant to remove: `.mp4` files modified more than 48 hours ago. -/
def expired (now : Int) (f : FileEntry) : Bool :=
  endsWith f.name mp4Ext && decide (now - f.mtime > 48 * 3600000)

/-! ## Downloader -/

/-- What the promise of `downloadClipLocally` settles to: resolved with
`{ success: true, filename }`, resolved with `{ success: false }`, or rejected. -/
inductive DownloadOutcome where
  | success (filename : JSString)
  | failure
  | rejected
deriving DecidableEq, Repr

/-- Embedding of `downloadClipLocally`: run the external program, then look for a file whose
name starts with the clip id and a hyphen. -/
def downloadClipLocally (env : Env) (clip : Clip) (d : Disk) : DownloadOutcome × Disk :=
  match env.ytDlp (baseFilename clip.id clip.title ++ str ".%(ext)s") clip.url d with
  | (.close (some 0), d') =>
    match readdirSync d' with
    | some files =>
      match files.find? (fun f => startsWith f (clip.id ++ [hyphen])) with
      | some downloadedFile => (.success downloadedFile, d')
      | none => (.failure, d')
    | none => (.failure, d')
  | (.close _, d') => (.failure, d')
  | (.error, d') => (.failure, d')
  | (.threw, d') => (.rejected, d')

/-! ## Reconciler -/

/-- Query and route parameters of `GET /popular-clips/:username`; `none` is an absent
query parameter. -/
structure Request where
  username : JSString
  clientId : Option JSString
  clientSecret : Option JSString
  limit : Option JSString
  period : Option JSString
  forceRefresh : Option JSString
deriving DecidableEq, Repr

/-- Body of the success response of the fetch handler. -/
structure ClipsBody where
  success : Bool
  username : JSString
  total : Nat
  downloaded : Nat
  clips : List ClipRecord
  cached : Bool
deriving DecidableEq, Repr

/-- Response of the fetch handler: status 400, a JSON body, or status 500 with a message. -/
inductive ClipsResponse where
  | badRequest
  | json (body : ClipsBody)
  | serverError (message : JSString)
deriving DecidableEq, Repr

/-- State of the download loop: the accumulator `downloadedClips`, the directory, and the log
of the calls of `downloadClipLocally` made so far with their outcomes. -/
structure LoopState where
  downloadedClips : List ClipRecord
  disk : Disk
  calls : List (Clip × DownloadOutcome)
deriving DecidableEq, Repr

/-- The object pushed on `downloadedClips` after a successful download. -/
def downloadedRecord (env : Env) (clip : Clip) (filename : JSString) : ClipRecord :=
  { id := clip.id
    title := clip.title
    url := some clip.url
    creator := clip.creator
    duration := clip.duration
    views := clip.views
    localFile := filename
    localUrl := env.VIDEO_URL_PATH ++ [slash] ++ env.encodeURIComponent filename
    created := clip.created
    cached := none }

/-- The `for (const clip of clips)` loop of the fetch handler. -/
def fetchLoop (env : Env) (existingClips : List ClipRecord) : List Clip → LoopState → LoopState
  | [], s => s
  | clip :: rest, s =>
    if existingClips.any (fun existing => existing.id == clip.id) then
      fetchLoop env existingClips rest s
    else if s.downloadedClips.length ≥ 20 then s
    else
      match downloadClipLocally env clip s.disk with
      | (.success filename, d') =>
        fetchLoop env existingClips rest
          { downloadedClips := s.downloadedClips ++ [downloadedRecord env clip filename]
            disk := d'
            calls := s.calls ++ [(clip, .success filename)] }
      | (outcome, d') =>
        fetchLoop env existingClips rest
          { s with disk := d', calls := s.calls ++ [(clip, outcome)] }

/-- What one request to the fetch handler does: the response, the directory it leaves, the
number of calls of `getPopularClips` and the log of the calls of `downloadClipLocally`. -/
structure HandlerResult where
  response : ClipsResponse
  disk : Disk
  upstreamCalls : Nat
  downloadCalls : List (Clip × DownloadOutcome)
deriving DecidableEq, Repr

/-- JavaScript truthiness of a query parameter: present and not the empty string. -/
def truthy (v : Option JSString) : Bool :=
  match v with
  | some (_ :: _) => true
  | _ => false

/-- Embedding of the handler of `GET /popular-clips/:username`. -/
def popularClips (env : Env) (req : Request) (d : Disk) : HandlerResult :=
  if !truthy req.clientId || !truthy req.clientSecret then
    { response := .badRequest, disk := d, upstreamCalls := 0, downloadCalls := [] }
  else
    let existingClips := getExistingClips env d
    if existingClips.length ≥ 10 ∧ req.forceRefresh.getD (str "false") ≠ str "true" then
      { response := .json
          { success := true
            username := req.username
            total := existingClips.length
            downloaded := existingClips.length
            clips := existingClips.take 20
            cached := true }
        disk := d, upstreamCalls := 0, downloadCalls := [] }
    else
      match env.getPopularClips req.username (req.limit.getD (str "15"))
          (req.period.getD (str "week")) (req.clientId.getD []) (req.clientSecret.getD []) with
      | .error message =>
        { response := .serverError message, disk := d, upstreamCalls := 1, downloadCalls := [] }
      | .ok clips =>
        let s := fetchLoop env existingClips clips
          { downloadedClips := existingClips, disk := d, calls := [] }
        { response := .json
            { success := true
              username := req.username
              total := s.downloadedClips.length
              downloaded := s.downloadedClips.length
              clips := s.downloadedClips
              cached := false }
          disk := s.disk, upstreamCalls := 1, downloadCalls := s.calls }

/-! ## Notions used to state the properties -/

/-- The `clips` array of a response; empty for the error responses, which carry none. -/
def responseClips : ClipsResponse → List ClipRecord
  | .json body => body.clips
  | _ => []

/-- The duplicate test of the download loop: `existingClips.some(existing => existing.id === clip.id)`. -/
def alreadyCached (existingClips : List ClipRecord) (clip : Clip) : Bool :=
  existingClips.any (fun existing => existing.id == clip.id)

/-- The records that a log of download calls contributes: one per call that resolved with
`success: true`, in the order of the calls. -/
def successes (env : Env) : List (Clip × DownloadOutcome) → List ClipRecord
  | [] => []
  | (clip, .success filename) :: rest => downloadedRecord env clip filename :: successes env rest
  | (_, _) :: rest => successes env rest

/-- State of the download loop after one call of `downloadClipLocally` for `clip`. -/
def afterAttempt (env : Env) (clip : Clip) (s : LoopState) : LoopState :=
  { downloadedClips :=
      s.downloadedClips ++ successes env [(clip, (downloadClipLocally env clip s.disk).1)]
    disk := (downloadClipLocally env clip s.disk).2
    calls := s.calls ++ [(clip, (downloadClipLocally env clip s.disk).1)] }

/-- State of the download loop when the fetch handler enters it. -/
def initialState (env : Env) (d : Disk) : LoopState :=
  { downloadedClips := getExistingClips env d, disk := d, calls := [] }

/-- The request takes the upstream path: fewer than 10 cached clips, or `forceRefresh` is
the string `true`. -/
def upstreamPath (env : Env) (req : Request) (d : Disk) : Prop :=
  (getExistingClips env d).length < 10 ∨ req.forceRefresh.getD (str "false") = str "true"

instance (env : Env) (req : Request) (d : Disk) : Decidable (upstreamPath env req d) :=
  inferInstanceAs (Decidable ((getExistingClips env d).length < 10 ∨
    req.forceRefresh.getD (str "false") = str "true"))

/-- Both credentials are present in the query. -/
def hasCredentials (req : Request) : Prop :=
  truthy req.clientId = true ∧ truthy req.clientSecret = true

instance (req : Request) : Decidable (hasCredentials req) :=
  inferInstanceAs (Decidable (truthy req.clientId = true ∧ truthy req.clientSecret = true))

/-- The candidate list that upstream returns for the request. -/
def upstreamAnswer (env : Env) (req : Request) : Except JSString (List Clip) :=
  env.getPopularClips req.username (req.limit.getD (str "15"))
    (req.period.getD (str "week")) (req.clientId.getD []) (req.clientSecret.getD [])

/-- The directory that is left when the loop has run over the entries `l` without an error:
the expired entries among `l` are gone. -/
def sweptFiles (now : Int) (l : List FileEntry) (files : List FileEntry) : List FileEntry :=
  files.filter (fun g => !(expired now g && decide (g.name ∈ l.map FileEntry.name)))

/-! ## Concrete scenarios -/

/-- A file of the scenarios: no file system call fails on it. -/
def plainFile (name : JSString) (birthtime mtime : Int) : FileEntry :=
  { name := name, birthtime := birthtime, mtime := mtime, statFails := false,
    unlinkFails := false }

/-- A candidate of the scenarios. -/
def demoClip (id title url : String) : Clip :=
  { id := str id, title := str title, url := str url, creator := str "someone",
    duration := 12, views := 7, created := 1000 }

/-- Five candidates: two are cached already (`A`, `B`), the download of one fails (`bad`). -/
def demoCands : List Clip :=
  [demoClip "A" "First" "u1", demoClip "N1" "Some Clip!" "u2", demoClip "B" "Second" "u3",
   demoClip "N2" "Broken" "bad", demoClip "N3" "Third one" "u5"]

/-- Environment of the scenarios: upstream lists `demoCands`; the external program writes the
file `<base>.mp4` and exits with code 0, except for the URL `bad`, where it exits with code 1. -/
def demoEnv : Env :=
  { VIDEO_URL_PATH := str "/clips/videos"
    encodeURIComponent := fun file => file
    getPopularClips := fun _ _ _ _ _ => .ok demoCands
    ytDlp := fun template url d =>
      if url = str "bad" then (.close (some 1), d)
      else (.close (some 0),
        { d with files := d.files ++
            [plainFile (template.take (template.length - 8) ++ mp4Ext) 5000 5000] }) }

/-- Request with credentials and no other query parameter. -/
def demoReq : Request :=
  { username := str "foo", clientId := some (str "id"), clientSecret := some (str "secret"),
    limit := none, period := none, forceRefresh := none }

/-- The same request with `forceRefresh=true`. -/
def demoForceReq : Request := { demoReq with forceRefresh := some (str "true") }

/-- Directory with three cached clips and one file that is no clip. -/
def demoDisk3 : Disk :=
  { readable := true
    files := [plainFile (str "A-one.mp4") 10 10, plainFile (str "notes.txt") 40 40,
      plainFile (str "B-two.mp4") 30 30, plainFile (str "C-three.mp4") 20 20] }

/-- Directory with `n` cached clips `A-x.mp4`, `B-x.mp4`, and so on. -/
def demoDiskOf (n : Nat) : Disk :=
  { readable := true
    files := (List.range n).map (fun i => plainFile (([65 + i] : JSString) ++ str "-x.mp4") i i) }

/-- One hour in milliseconds. -/
def hourMs : Int := 3600000

/-- Directory whose second clip cannot be deleted; all three clips are 60 hours old at time
`100 * hourMs`. -/
def demoStuckDisk : Disk :=
  { readable := true
    files := [plainFile (str "A-old.mp4") 0 (40 * hourMs),
      { plainFile (str "B-stuck.mp4") 0 (40 * hourMs) with unlinkFails := true },
      plainFile (str "C-old.mp4") 0 (40 * hourMs)] }

/-- Directory for the sweep at time `100 * hourMs`: modified 49, 47 and 60 hours ago. -/
def demoSweepDisk : Disk :=
  { readable := true
    files := [plainFile (str "A-old.mp4") 0 (51 * hourMs),
      plainFile (str "B-new.mp4") 0 (53 * hourMs), plainFile (str "old.txt") 0 (40 * hourMs)] }

/-- Directory whose first clip cannot be examined; the second one is 60 hours old. -/
def demoBrokenDisk : Disk :=
  { readable := true
    files := [{ plainFile (str "A-gone.mp4") 0 (40 * hourMs) with statFails := true },
      plainFile (str "B-old.mp4") 0 (40 * hourMs)] }

/-- Directory that can be listed, with one clip whose metadata can be read and one clip on which
`statSync` throws (for instance a dangling link). -/
def demoDanglingDisk : Disk :=
  { readable := true
    files := [plainFile (str "A-one.mp4") 10 10,
      { plainFile (str "B-gone.mp4") 20 20 with statFails := true }] }

/-! ## Lemmas on strings -/

theorem mem_collapseWsAux (b : Bool) (s : JSString) (c : Nat)
    (h : c ∈ collapseWsAux b s) : c = space ∨ c ∈ s := by
  induction s generalizing b with
  | nil => simp [collapseWsAux] at h
  | cons x xs ih =>
    unfold collapseWsAux at h
    by_cases hx : isWs x = true
    · simp only [hx, if_true] at h
      cases b with
      | true =>
        simp only [if_true] at h
        rcases ih true h with h1 | h1
        · exact Or.inl h1
        · exact Or.inr (List.mem_cons_of_mem _ h1)
      | false =>
        simp only [Bool.false_eq_true, if_false, List.mem_cons] at h
        rcases h with h1 | h1
        · exact Or.inl h1
        · rcases ih true h1 with h2 | h2
          · exact Or.inl h2
          · exact Or.inr (List.mem_cons_of_mem _ h2)
    · have hx' : isWs x = false := by simpa using hx
      simp only [hx', Bool.false_eq_true, if_false, List.mem_cons] at h
      rcases h with h1 | h1
      · exact Or.inr (h1 ▸ List.mem_cons_self _ _)
      · rcases ih false h1 with h2 | h2
        · exact Or.inl h2
        · exact Or.inr (List.mem_cons_of_mem _ h2)

theorem trim_sublist (s : JSString) : (trim s).Sublist s := by
  unfold trim
  have h1 : ((s.dropWhile isWs).reverse.dropWhile isWs).Sublist (s.dropWhile isWs).reverse :=
    List.dropWhile_sublist _
  have h2 := h1.reverse
  rw [List.reverse_reverse] at h2
  exact h2.trans (List.dropWhile_sublist _)

theorem wsToUnderscore_collapseWsAux_sublist (b : Bool) (s : JSString) :
    (wsToUnderscore (collapseWsAux b s)).Sublist (wsToUnderscore s) := by
  induction s generalizing b with
  | nil => simp [collapseWsAux, wsToUnderscore]
  | cons x xs ih =>
    unfold collapseWsAux
    by_cases hx : isWs x = true
    · cases b with
      | true =>
        simp only [hx, if_true]
        have := ih true
        simp only [wsToUnderscore, List.map_cons] at this ⊢
        exact List.Sublist.cons _ this
      | false =>
        simp only [hx, if_true, Bool.false_eq_true, if_false]
        have := ih true
        simp only [wsToUnderscore, List.map_cons, hx, if_true] at this ⊢
        have hs : isWs space = true := by decide
        simp only [hs, if_true]
        exact List.Sublist.cons₂ _ this
    · rw [if_neg hx]
      have := ih false
      simp only [wsToUnderscore, List.map_cons] at this ⊢
      exact List.Sublist.cons₂ _ this

/-- After `.replace(/\s+/g, ' ')` no two neighbouring code units are both white space. -/
theorem collapseWsAux_chain (b : Bool) (s : JSString) :
    List.Chain' (fun x y => ¬ (isWs x = true ∧ isWs y = true)) (collapseWsAux b s) ∧
    (b = true → ∀ x ∈ (collapseWsAux b s).head?, isWs x = false) := by
  induction s generalizing b with
  | nil => simp [collapseWsAux]
  | cons x xs ih =>
    unfold collapseWsAux
    by_cases hx : isWs x = true
    · cases b with
      | true =>
        rw [if_pos hx, if_pos rfl]
        exact ih true
      | false =>
        simp only [hx, if_true, Bool.false_eq_true, if_false]
        refine ⟨?_, by simp⟩
        rw [List.chain'_cons']
        refine ⟨?_, (ih true).1⟩
        intro y hy hxy
        have := (ih true).2 rfl y hy
        simp [this] at hxy
    · rw [if_neg hx]
      refine ⟨?_, ?_⟩
      · rw [List.chain'_cons']
        refine ⟨?_, (ih false).1⟩
        intro y _ hxy
        exact hx hxy.1
      · intro _ y hy
        simp only [List.head?_cons, Option.mem_def, Option.some.injEq] at hy
        subst hy
        simpa using hx

theorem isSafeChar_cases (c : Nat) (h : isSafeChar c = true) (hw : isWs c = false) :
    isAlnum c = true ∨ c = hyphen ∨ c = underscore := by
  unfold isSafeChar at h
  simp only [Bool.or_eq_true, hw, Bool.false_eq_true, or_false, beq_iff_eq] at h
  tauto

theorem mem_safeTitle (title : JSString) (c : Nat) (h : c ∈ safeTitle title) :
    isAlnum c = true ∨ c = hyphen ∨ c = underscore := by
  unfold safeTitle wsToUnderscore at h
  rw [List.mem_map] at h
  obtain ⟨x, hx, hxc⟩ := h
  have hx1 : x ∈ collapseWs (title.filter isSafeChar) :=
    (List.take_sublist _ _).subset ((trim_sublist _).subset hx)
  have hsafe : isSafeChar x = true := by
    rcases mem_collapseWsAux _ _ _ hx1 with h1 | h1
    · subst h1; decide
    · exact (List.mem_filter.1 h1).2
  by_cases hw : isWs x = true
  · simp only [hw, if_true] at hxc
    exact Or.inr (Or.inr hxc.symm)
  · simp only [hw, if_false] at hxc
    subst hxc
    exact isSafeChar_cases _ hsafe (by simpa using hw)

theorem length_safeTitle (title : JSString) : (safeTitle title).length ≤ 30 := by
  unfold safeTitle wsToUnderscore substring0
  rw [List.length_map]
  exact (trim_sublist _).length_le.trans (List.length_take_le _ _)

theorem safeTitle_sublist (title : JSString) :
    (safeTitle title).Sublist (wsToUnderscore title) := by
  unfold safeTitle
  have h1 : (trim (substring0 30 (collapseWs (title.filter isSafeChar)))).Sublist
      (collapseWs (title.filter isSafeChar)) :=
    (trim_sublist _).trans (List.take_sublist _ _)
  have h2 := h1.map (fun c => if isWs c then underscore else c)
  have h3 := wsToUnderscore_collapseWsAux_sublist false (title.filter isSafeChar)
  have h4 : (wsToUnderscore (title.filter isSafeChar)).Sublist (wsToUnderscore title) :=
    (List.filter_sublist title).map _
  exact (h2.trans h3).trans h4

theorem isWordChar_not_ws (c : Nat) (h : isWordChar c = true) : isWs c = false := by
  unfold isWordChar isAlnum hyphen underscore at h
  simp only [Bool.or_eq_true, Bool.and_eq_true, decide_eq_true_eq, beq_iff_eq] at h
  unfold isWs
  simp only [Bool.or_eq_false_iff, Bool.and_eq_false_iff, decide_eq_false_iff_not,
    beq_eq_false_iff_ne, ne_eq]
  omega

theorem isWordChar_safe (c : Nat) (h : isWordChar c = true) : isSafeChar c = true := by
  unfold isWordChar at h
  unfold isSafeChar
  simp only [Bool.or_eq_true] at h ⊢
  tauto

theorem isWs_safe (c : Nat) (h : isWs c = true) : isSafeChar c = true := by
  unfold isSafeChar
  simp [h]

theorem collapseWsAux_cons_word (b : Bool) (x : Nat) (t : JSString) (hx : isWs x = false) :
    collapseWsAux b (x :: t) = x :: collapseWsAux false t := by
  rw [collapseWsAux]; simp [hx]

theorem collapseWsAux_cons_ws (b : Bool) (x : Nat) (t : JSString) (hx : isWs x = true) :
    collapseWsAux b (x :: t) = (if b then [] else [space]) ++ collapseWsAux true t := by
  rw [collapseWsAux]; cases b <;> simp [hx]

theorem collapseWsAux_false_append_word (u rest : JSString)
    (hu : ∀ c ∈ u, isWs c = false) :
    collapseWsAux false (u ++ rest) = u ++ collapseWsAux false rest := by
  induction u with
  | nil => rfl
  | cons x xs ih =>
    rw [List.cons_append, collapseWsAux_cons_word _ _ _ (hu x (List.mem_cons_self _ _)),
      ih (fun c hc => hu c (List.mem_cons_of_mem _ hc)), List.cons_append]

theorem collapseWsAux_append_word (b : Bool) (u rest : JSString) (hne : u ≠ [])
    (hu : ∀ c ∈ u, isWs c = false) :
    collapseWsAux b (u ++ rest) = u ++ collapseWsAux false rest := by
  cases u with
  | nil => exact absurd rfl hne
  | cons x xs =>
    rw [List.cons_append, collapseWsAux_cons_word _ _ _ (hu x (List.mem_cons_self _ _)),
      collapseWsAux_false_append_word xs rest (fun c hc => hu c (List.mem_cons_of_mem _ hc)),
      List.cons_append]

theorem collapseWsAux_true_append_ws (r rest : JSString) (hr : ∀ c ∈ r, isWs c = true) :
    collapseWsAux true (r ++ rest) = collapseWsAux true rest := by
  induction r with
  | nil => rfl
  | cons x xs ih =>
    rw [List.cons_append, collapseWsAux_cons_ws _ _ _ (hr x (List.mem_cons_self _ _)),
      ih (fun c hc => hr c (List.mem_cons_of_mem _ hc))]
    rfl

theorem collapseWsAux_append_run (b : Bool) (r rest : JSString) (hne : r ≠ [])
    (hr : ∀ c ∈ r, isWs c = true) :
    collapseWsAux b (r ++ rest) = (if b then [] else [space]) ++ collapseWsAux true rest := by
  cases r with
  | nil => exact absurd rfl hne
  | cons x xs =>
    rw [List.cons_append, collapseWsAux_cons_ws _ _ _ (hr x (List.mem_cons_self _ _)),
      collapseWsAux_true_append_ws xs rest (fun c hc => hr c (List.mem_cons_of_mem _ hc))]

/-- A white space run in front of `rest` contributes at most one space. -/
theorem collapseWsAux_append_ws (b : Bool) (r : JSString) (hr : ∀ c ∈ r, isWs c = true) :
    ∃ (lead : JSString) (b' : Bool), lead.length ≤ 1 ∧ (∀ c ∈ lead, isWs c = true) ∧
      ∀ rest, collapseWsAux b (r ++ rest) = lead ++ collapseWsAux b' rest := by
  by_cases hne : r = []
  · exact ⟨[], b, by simp, by simp, fun rest => by rw [hne]; rfl⟩
  · refine ⟨if b then [] else [space], true, ?_, ?_, fun rest =>
      collapseWsAux_append_run b r rest hne hr⟩
    · cases b <;> simp
    · cases b
      · intro c hc
        simp only [Bool.false_eq_true, if_false, List.mem_singleton] at hc
        subst hc; decide
      · intro c hc; simp at hc

theorem collapseWsAux_same_front (a t1 t2 : JSString)
    (h : ∀ b, collapseWsAux b t1 = collapseWsAux b t2) (b : Bool) :
    collapseWsAux b (a ++ t1) = collapseWsAux b (a ++ t2) := by
  induction a generalizing b with
  | nil => exact h b
  | cons x xs ih =>
    rw [List.cons_append, List.cons_append]
    cases hx : isWs x with
    | true => rw [collapseWsAux_cons_ws _ _ _ hx, collapseWsAux_cons_ws _ _ _ hx, ih]
    | false => rw [collapseWsAux_cons_word _ _ _ hx, collapseWsAux_cons_word _ _ _ hx, ih]

theorem dropWhile_ws_append (lead core : JSString) (hl : ∀ c ∈ lead, isWs c = true)
    (hc : ∀ c ∈ core.head?, isWs c = false) : (lead ++ core).dropWhile isWs = core := by
  induction lead with
  | nil =>
    cases core with
    | nil => rfl
    | cons x xs =>
      have := hc x (by simp)
      simp [List.dropWhile_cons, this]
  | cons x xs ih =>
    rw [List.cons_append, List.dropWhile_cons, if_pos (hl x (List.mem_cons_self _ _))]
    exact ih (fun c hc' => hl c (List.mem_cons_of_mem _ hc'))

theorem trim_core (lead core trail : JSString) (hne : core ≠ [])
    (hl : ∀ c ∈ lead, isWs c = true) (ht : ∀ c ∈ trail, isWs c = true)
    (hfirst : ∀ c ∈ core.head?, isWs c = false)
    (hlast : ∀ c ∈ core.reverse.head?, isWs c = false) :
    trim (lead ++ core ++ trail) = core := by
  unfold trim
  rw [List.append_assoc, dropWhile_ws_append lead (core ++ trail) hl
    (by rw [List.head?_append_of_ne_nil _ hne]; exact hfirst)]
  rw [List.reverse_append, dropWhile_ws_append trail.reverse core.reverse
    (fun c hc => ht c (List.mem_reverse.1 hc)) hlast, List.reverse_reverse]

theorem wsToUnderscore_word (u : JSString) (hu : ∀ c ∈ u, isWs c = false) :
    wsToUnderscore u = u := by
  unfold wsToUnderscore
  conv_rhs => rw [← List.map_id u]
  apply List.map_congr_left
  intro c hc
  simp [hu c hc]

/-- The last three steps of the sanitizer on a string that is one space at most, a core
without outer white space, and one space at most. -/
theorem finish_core (lead core trail : JSString) (hne : core ≠ [])
    (hlen : lead.length + core.length ≤ 30)
    (hl : ∀ c ∈ lead, isWs c = true) (ht : ∀ c ∈ trail, isWs c = true)
    (hfirst : ∀ c ∈ core.head?, isWs c = false)
    (hlast : ∀ c ∈ core.reverse.head?, isWs c = false) :
    wsToUnderscore (trim (substring0 30 (lead ++ core ++ trail))) = wsToUnderscore core := by
  unfold substring0
  rw [List.take_append_eq_append_take,
    List.take_of_length_le (by rw [List.length_append]; exact hlen)]
  rw [trim_core lead core _ hne hl
    (fun c hc => ht c ((List.take_sublist _ _).subset hc)) hfirst hlast]

theorem head_mem_of_append (u x : JSString) (hne : u ≠ []) :
    ∀ c ∈ (u ++ x).head?, c ∈ u := by
  cases u with
  | nil => exact absurd rfl hne
  | cons y ys =>
    intro c hc
    simp only [List.cons_append, List.head?_cons, Option.mem_def, Option.some.injEq] at hc
    subst hc
    exact List.mem_cons_self _ _

theorem last_mem_of_append (x v : JSString) (hne : v ≠ []) :
    ∀ c ∈ (x ++ v).reverse.head?, c ∈ v := by
  intro c hc
  rw [List.reverse_append] at hc
  exact List.mem_reverse.1
    (head_mem_of_append v.reverse x.reverse (by simpa using hne) c hc)

theorem safeTitle_of_words (title : JSString) (h : ∀ c ∈ title, isWordChar c = true) :
    safeTitle title = title.take 30 := by
  have hws : ∀ c ∈ title, isWs c = false := fun c hc => isWordChar_not_ws c (h c hc)
  have hf : title.filter isSafeChar = title :=
    List.filter_eq_self.2 (fun c hc => isWordChar_safe c (h c hc))
  have hc : collapseWs title = title := by
    have := collapseWsAux_false_append_word title [] hws
    rw [List.append_nil] at this
    unfold collapseWs
    rw [this]; simp [collapseWsAux]
  unfold safeTitle
  rw [hf, hc]
  unfold substring0
  have hws' : ∀ c ∈ title.take 30, isWs c = false :=
    fun c hc => hws c ((List.take_sublist _ _).subset hc)
  by_cases hne : title.take 30 = []
  · rw [hne]; rfl
  · have htrim : trim (title.take 30) = title.take 30 := by
      have := trim_core [] (title.take 30) [] hne (by simp) (by simp)
        (fun c hc => hws' c (List.mem_of_mem_head? hc))
        (fun c hc => hws' c (List.mem_reverse.1 (List.mem_of_mem_head? hc)))
      simpa using this
    rw [htrim, wsToUnderscore_word _ hws']

theorem safeTitle_filter (title : JSString) :
    safeTitle (title.filter isSafeChar) = safeTitle title := by
  unfold safeTitle
  rw [List.filter_filter]
  simp

theorem safeTitle_run (u run v : JSString) (hne : run ≠ [])
    (hrun : ∀ c ∈ run, isWs c = true) :
    safeTitle (u ++ run ++ v) = safeTitle (u ++ [space] ++ v) := by
  unfold safeTitle collapseWs
  have hf : run.filter isSafeChar = run :=
    List.filter_eq_self.2 (fun c hc => isWs_safe c (hrun c hc))
  have hs : [space].filter isSafeChar = [space] := by decide
  rw [List.filter_append, List.filter_append, List.filter_append, List.filter_append, hf, hs,
    List.append_assoc, List.append_assoc]
  rw [collapseWsAux_same_front (u.filter isSafeChar) (run ++ v.filter isSafeChar)
    ([space] ++ v.filter isSafeChar)]
  intro b
  rw [collapseWsAux_append_run b run _ hne hrun,
    collapseWsAux_append_run b [space] _ (by simp) (by decide)]

theorem safeTitle_two_words (r0 u r1 v r2 : JSString)
    (hu : ∀ c ∈ u, isWordChar c = true) (hv : ∀ c ∈ v, isWordChar c = true)
    (hune : u ≠ []) (hvne : v ≠ []) (h1ne : r1 ≠ [])
    (h0 : ∀ c ∈ r0, isWs c = true) (h1 : ∀ c ∈ r1, isWs c = true)
    (h2 : ∀ c ∈ r2, isWs c = true) (hlen : u.length + v.length + 2 ≤ 30) :
    safeTitle (r0 ++ u ++ r1 ++ v ++ r2) = u ++ [underscore] ++ v := by
  have huw : ∀ c ∈ u, isWs c = false := fun c hc => isWordChar_not_ws c (hu c hc)
  have hvw : ∀ c ∈ v, isWs c = false := fun c hc => isWordChar_not_ws c (hv c hc)
  have hf : (r0 ++ u ++ r1 ++ v ++ r2).filter isSafeChar = r0 ++ u ++ r1 ++ v ++ r2 := by
    apply List.filter_eq_self.2
    intro c hc
    simp only [List.mem_append] at hc
    rcases hc with (((hc | hc) | hc) | hc) | hc
    · exact isWs_safe c (h0 c hc)
    · exact isWordChar_safe c (hu c hc)
    · exact isWs_safe c (h1 c hc)
    · exact isWordChar_safe c (hv c hc)
    · exact isWs_safe c (h2 c hc)
  obtain ⟨lead, b0, hl1, hlws, hlead⟩ := collapseWsAux_append_ws false r0 h0
  obtain ⟨trail, b2, -, htws, htrail⟩ := collapseWsAux_append_ws false r2 h2
  have htrail' : collapseWsAux false r2 = trail := by
    have := htrail []
    rw [List.append_nil] at this
    rw [this]; simp [collapseWsAux]
  have hc : collapseWs (r0 ++ u ++ r1 ++ v ++ r2) = lead ++ (u ++ [space] ++ v) ++ trail := by
    unfold collapseWs
    rw [List.append_assoc, List.append_assoc, List.append_assoc, hlead,
      collapseWsAux_append_word b0 u _ hune huw,
      collapseWsAux_append_run false r1 _ h1ne h1,
      collapseWsAux_append_word true v _ hvne hvw, htrail']
    simp
  unfold safeTitle
  rw [hf, hc, finish_core lead (u ++ [space] ++ v) trail (by simp [hune])
    (by simp only [List.length_append, List.length_singleton]; omega) hlws htws
    (fun c hc' => huw c (head_mem_of_append u _ hune c (by rwa [List.append_assoc] at hc')))
    (fun c hc' => hvw c (last_mem_of_append _ v hvne c hc'))]
  unfold wsToUnderscore
  rw [List.map_append, List.map_append]
  have e1 := wsToUnderscore_word u huw
  have e2 := wsToUnderscore_word v hvw
  unfold wsToUnderscore at e1 e2
  rw [e1, e2]
  rfl

theorem safeTitle_one_word (r0 u r2 : JSString)
    (hu : ∀ c ∈ u, isWordChar c = true) (hune : u ≠ [])
    (h0 : ∀ c ∈ r0, isWs c = true) (h2 : ∀ c ∈ r2, isWs c = true)
    (hlen : u.length + 1 ≤ 30) :
    safeTitle (r0 ++ u ++ r2) = u := by
  have huw : ∀ c ∈ u, isWs c = false := fun c hc => isWordChar_not_ws c (hu c hc)
  have hf : (r0 ++ u ++ r2).filter isSafeChar = r0 ++ u ++ r2 := by
    apply List.filter_eq_self.2
    intro c hc
    simp only [List.mem_append] at hc
    rcases hc with (hc | hc) | hc
    · exact isWs_safe c (h0 c hc)
    · exact isWordChar_safe c (hu c hc)
    · exact isWs_safe c (h2 c hc)
  obtain ⟨lead, b0, hl1, hlws, hlead⟩ := collapseWsAux_append_ws false r0 h0
  obtain ⟨trail, b2, -, htws, htrail⟩ := collapseWsAux_append_ws false r2 h2
  have htrail' : collapseWsAux false r2 = trail := by
    have := htrail []
    rw [List.append_nil] at this
    rw [this]; simp [collapseWsAux]
  have hc : collapseWs (r0 ++ u ++ r2) = lead ++ u ++ trail := by
    unfold collapseWs
    rw [List.append_assoc, hlead, collapseWsAux_append_word b0 u _ hune huw, htrail']
    simp
  unfold safeTitle
  rw [hf, hc, finish_core lead u trail hune (by omega) hlws htws
    (fun c hc' => huw c (List.mem_of_mem_head? hc'))
    (fun c hc' => huw c (List.mem_reverse.1 (List.mem_of_mem_head? hc'))),
    wsToUnderscore_word u huw]

theorem splitAux_head (sep : Nat) (cur s : JSString) :
    (splitAux sep cur s).headD [] = cur.reverse ++ s.takeWhile (fun c => c != sep) := by
  induction s generalizing cur with
  | nil => simp [splitAux]
  | cons x xs ih =>
    unfold splitAux
    by_cases hx : x = sep
    · simp [hx]
    · have hb : (x == sep) = false := by simpa using hx
      simp only [hb, Bool.false_eq_true, if_false]
      rw [ih]
      simp [List.takeWhile_cons, hx]

/-- The id parse `file.split('-')[0]` returns the code units before the first hyphen. -/
theorem parseClipId_eq_takeWhile (file : JSString) :
    parseClipId file = file.takeWhile (fun c => c != hyphen) := by
  unfold parseClipId split
  rw [splitAux_head]
  simp

/-- Whatever the id, the file name parses back to the part of the id before its first hyphen. -/
theorem parseClipId_clipFilename (id title : JSString) :
    parseClipId (clipFilename id title) = id.takeWhile (fun c => c != hyphen) := by
  rw [parseClipId_eq_takeWhile]
  unfold clipFilename baseFilename
  rw [List.append_assoc, List.append_assoc]
  rw [List.singleton_append]
  generalize safeTitle title ++ mp4Ext = tail
  induction id with
  | nil => simp [List.takeWhile_cons]
  | cons x xs ih =>
    by_cases hx : x = hyphen
    · simp [List.takeWhile_cons, hx]
    · have hb : (x != hyphen) = true := by simpa using hx
      rw [List.cons_append, List.takeWhile_cons, List.takeWhile_cons]
      simp only [hb, if_true]
      rw [ih]

/-- For an id without a hyphen the file name parses back to the id. -/
theorem parseClipId_clipFilename_of_no_hyphen (id title : JSString) (h : hyphen ∉ id) :
    parseClipId (clipFilename id title) = id := by
  rw [parseClipId_eq_takeWhile]
  unfold clipFilename baseFilename
  rw [List.append_assoc, List.append_assoc, List.takeWhile_append_of_pos]
  · simp
  · intro c hc
    have : c ≠ hyphen := fun hh => h (hh ▸ hc)
    simpa using this

/-! ## Lemmas on the download loop -/

theorem fetchLoop_nil (env : Env) (ex : List ClipRecord) (s : LoopState) :
    fetchLoop env ex [] s = s := rfl

theorem fetchLoop_cons_cached (env : Env) (ex : List ClipRecord) (c : Clip) (rest : List Clip)
    (s : LoopState) (h : alreadyCached ex c = true) :
    fetchLoop env ex (c :: rest) s = fetchLoop env ex rest s := by
  unfold alreadyCached at h
  rw [fetchLoop, if_pos h]

theorem fetchLoop_cons_full (env : Env) (ex : List ClipRecord) (c : Clip) (rest : List Clip)
    (s : LoopState) (h : alreadyCached ex c = false) (hfull : 20 ≤ s.downloadedClips.length) :
    fetchLoop env ex (c :: rest) s = s := by
  unfold alreadyCached at h
  rw [fetchLoop, if_neg (by simp [h]), if_pos hfull]

theorem fetchLoop_cons_attempt (env : Env) (ex : List ClipRecord) (c : Clip) (rest : List Clip)
    (s : LoopState) (h : alreadyCached ex c = false) (hroom : s.downloadedClips.length < 20) :
    fetchLoop env ex (c :: rest) s = fetchLoop env ex rest (afterAttempt env c s) := by
  unfold alreadyCached at h
  rw [fetchLoop, if_neg (by simp [h]), if_neg (by omega)]
  unfold afterAttempt
  rcases hd : downloadClipLocally env c s.disk with ⟨o, d'⟩
  cases o <;> simp [successes]

theorem fetchLoop_of_full (env : Env) (ex : List ClipRecord) (l : List Clip) (s : LoopState)
    (hfull : 20 ≤ s.downloadedClips.length) : fetchLoop env ex l s = s := by
  induction l with
  | nil => rfl
  | cons c rest ih =>
    cases h : alreadyCached ex c with
    | true => rw [fetchLoop_cons_cached env ex c rest s h, ih]
    | false => exact fetchLoop_cons_full env ex c rest s h hfull

theorem fetchLoop_append (env : Env) (ex : List ClipRecord) (pre l : List Clip) (s : LoopState) :
    fetchLoop env ex (pre ++ l) s = fetchLoop env ex l (fetchLoop env ex pre s) := by
  induction pre generalizing s with
  | nil => rfl
  | cons c rest ih =>
    rw [List.cons_append]
    cases h : alreadyCached ex c with
    | true => rw [fetchLoop_cons_cached _ _ _ _ _ h, fetchLoop_cons_cached _ _ _ _ _ h, ih]
    | false =>
      by_cases hfull : 20 ≤ s.downloadedClips.length
      · rw [fetchLoop_cons_full _ _ _ _ _ h hfull, fetchLoop_cons_full _ _ _ _ _ h hfull,
          fetchLoop_of_full _ _ _ _ hfull]
      · rw [fetchLoop_cons_attempt _ _ _ _ _ h (by omega),
          fetchLoop_cons_attempt _ _ _ _ _ h (by omega), ih]

theorem successes_append (env : Env) (a b : List (Clip × DownloadOutcome)) :
    successes env (a ++ b) = successes env a ++ successes env b := by
  induction a with
  | nil => rfl
  | cons x xs ih =>
    rcases x with ⟨c, o⟩
    cases o <;> simp [successes, ih]

theorem length_successes_le (env : Env) (a : List (Clip × DownloadOutcome)) :
    (successes env a).length ≤ a.length := by
  induction a with
  | nil => simp [successes]
  | cons x xs ih =>
    rcases x with ⟨c, o⟩
    cases o <;> simp [successes] <;> omega

theorem mem_successes (env : Env) (a : List (Clip × DownloadOutcome)) (r : ClipRecord)
    (h : r ∈ successes env a) : ∃ c ∈ a.map Prod.fst, r.id = c.id := by
  induction a with
  | nil => simp [successes] at h
  | cons x xs ih =>
    rcases x with ⟨c, o⟩
    cases o with
    | success f =>
      simp only [successes, List.mem_cons] at h
      rcases h with h | h
      · exact ⟨c, by simp, by rw [h]; rfl⟩
      · obtain ⟨c', hc', e⟩ := ih h
        exact ⟨c', by simp only [List.map_cons, List.mem_cons]; exact Or.inr hc', e⟩
    | failure =>
      simp only [successes] at h
      obtain ⟨c', hc', e⟩ := ih h
      exact ⟨c', by simp only [List.map_cons, List.mem_cons]; exact Or.inr hc', e⟩
    | rejected =>
      simp only [successes] at h
      obtain ⟨c', hc', e⟩ := ih h
      exact ⟨c', by simp only [List.map_cons, List.mem_cons]; exact Or.inr hc', e⟩

/-- What the download loop does to its state: it only appends to the log and to the
accumulator, the appended records are those of the successful calls, the calls follow the
order of the candidates that are not cached, and downloads never push the accumulator past 20. -/
theorem fetchLoop_spec (env : Env) (ex : List ClipRecord) (l : List Clip) (s : LoopState) :
    ∃ newCalls : List (Clip × DownloadOutcome),
      (fetchLoop env ex l s).calls = s.calls ++ newCalls ∧
      (fetchLoop env ex l s).downloadedClips = s.downloadedClips ++ successes env newCalls ∧
      (newCalls.map Prod.fst).Sublist (l.filter (fun c => !alreadyCached ex c)) ∧
      (fetchLoop env ex l s).downloadedClips.length ≤ max 20 s.downloadedClips.length := by
  induction l generalizing s with
  | nil => exact ⟨[], by simp [fetchLoop, successes]⟩
  | cons c rest ih =>
    cases h : alreadyCached ex c with
    | true =>
      rw [fetchLoop_cons_cached _ _ _ _ _ h]
      obtain ⟨nc, h1, h2, h3, h4⟩ := ih s
      exact ⟨nc, h1, h2, by simpa [List.filter_cons, h] using h3, h4⟩
    | false =>
      by_cases hfull : 20 ≤ s.downloadedClips.length
      · rw [fetchLoop_cons_full _ _ _ _ _ h hfull]
        exact ⟨[], by simp [successes]⟩
      · rw [fetchLoop_cons_attempt _ _ _ _ _ h (by omega)]
        obtain ⟨nc, h1, h2, h3, h4⟩ := ih (afterAttempt env c s)
        refine ⟨(c, (downloadClipLocally env c s.disk).1) :: nc, ?_, ?_, ?_, ?_⟩
        · rw [h1]; simp [afterAttempt]
        · rw [h2]
          have := successes_append env [(c, (downloadClipLocally env c s.disk).1)] nc
          simp only [List.singleton_append] at this
          rw [this]
          simp [afterAttempt]
        · simp only [List.map_cons, List.filter_cons, h, Bool.not_false, if_true]
          exact List.Sublist.cons₂ _ h3
        · have hl := length_successes_le env [(c, (downloadClipLocally env c s.disk).1)]
          have : (afterAttempt env c s).downloadedClips.length ≤ 20 := by
            simp only [afterAttempt, List.length_append, List.length_singleton] at hl ⊢
            omega
          omega

/-! ## The fetch handler -/

theorem fetchLoop_initial_spec (env : Env) (d : Disk) (l : List Clip) :
    ∃ newCalls : List (Clip × DownloadOutcome),
      (fetchLoop env (getExistingClips env d) l (initialState env d)).calls = newCalls ∧
      (fetchLoop env (getExistingClips env d) l (initialState env d)).downloadedClips
        = getExistingClips env d ++ successes env newCalls ∧
      (newCalls.map Prod.fst).Sublist
        (l.filter (fun c => !alreadyCached (getExistingClips env d) c)) ∧
      (fetchLoop env (getExistingClips env d) l (initialState env d)).downloadedClips.length
        ≤ max 20 (getExistingClips env d).length := by
  obtain ⟨nc, h1, h2, h3, h4⟩ :=
    fetchLoop_spec env (getExistingClips env d) l (initialState env d)
  have e1 : (initialState env d).calls = [] := rfl
  have e2 : (initialState env d).downloadedClips = getExistingClips env d := rfl
  rw [e1, List.nil_append] at h1
  rw [e2] at h2 h4
  exact ⟨nc, h1, h2, h3, h4⟩

theorem popularClips_upstream (env : Env) (req : Request) (d : Disk) (cands : List Clip)
    (hc : hasCredentials req) (hp : upstreamPath env req d)
    (hu : upstreamAnswer env req = .ok cands) :
    popularClips env req d =
      { response := .json
          { success := true
            username := req.username
            total := (fetchLoop env (getExistingClips env d) cands
              (initialState env d)).downloadedClips.length
            downloaded := (fetchLoop env (getExistingClips env d) cands
              (initialState env d)).downloadedClips.length
            clips := (fetchLoop env (getExistingClips env d) cands
              (initialState env d)).downloadedClips
            cached := false }
        disk := (fetchLoop env (getExistingClips env d) cands (initialState env d)).disk
        upstreamCalls := 1
        downloadCalls := (fetchLoop env (getExistingClips env d) cands
          (initialState env d)).calls } := by
  obtain ⟨h1, h2⟩ := hc
  unfold upstreamAnswer at hu
  unfold popularClips
  have hfast : ¬ ((getExistingClips env d).length ≥ 10 ∧
      req.forceRefresh.getD (str "false") ≠ str "true") := by
    rcases hp with hp | hp
    · intro h; omega
    · intro h; exact h.2 hp
  rw [if_neg (by simp [h1, h2])]
  simp only [hfast, if_false, hu]
  rfl

/-- C1: with at least 10 cached clips and `forceRefresh` other than `true`, the fetch handler
calls neither `getPopularClips` nor `downloadClipLocally`, leaves the directory alone and answers
with `cached: true` and the first `min(n, 20)` entries of the catalog. -/
theorem cache_hit_served_without_upstream (env : Env) (req : Request) (d : Disk)
    (hc : hasCredentials req) (hn : 10 ≤ (getExistingClips env d).length)
    (hf : req.forceRefresh.getD (str "false") ≠ str "true") :
    (popularClips env req d).upstreamCalls = 0 ∧
    (popularClips env req d).downloadCalls = [] ∧
    (popularClips env req d).disk = d ∧
    (popularClips env req d).response = .json
      { success := true
        username := req.username
        total := (getExistingClips env d).length
        downloaded := (getExistingClips env d).length
        clips := (getExistingClips env d).take 20
        cached := true } ∧
    (responseClips (popularClips env req d).response).length
      = min (getExistingClips env d).length 20 := by
  obtain ⟨h1, h2⟩ := hc
  have hfast : (getExistingClips env d).length ≥ 10 ∧
      req.forceRefresh.getD (str "false") ≠ str "true" := ⟨hn, hf⟩
  have e : popularClips env req d =
      { response := .json
          { success := true
            username := req.username
            total := (getExistingClips env d).length
            downloaded := (getExistingClips env d).length
            clips := (getExistingClips env d).take 20
            cached := true }
        disk := d, upstreamCalls := 0, downloadCalls := [] } := by
    unfold popularClips
    rw [if_neg (by simp [h1, h2]), if_pos hfast]
  rw [e]
  refine ⟨rfl, rfl, rfl, rfl, ?_⟩
  simp [responseClips, List.length_take, Nat.min_comm]

/-- C2 (amended): on the upstream path the returned `clips` has at most `max(20, n)` entries
for a catalog of `n` entries, whatever upstream lists and whichever downloads succeed; the
entries added by downloads never bring the total above 20. -/
theorem upstream_path_length_bound (env : Env) (req : Request) (d : Disk) (cands : List Clip)
    (hc : hasCredentials req) (hp : upstreamPath env req d)
    (hu : upstreamAnswer env req = .ok cands) :
    (responseClips (popularClips env req d).response).length
      ≤ max 20 (getExistingClips env d).length ∧
    ((getExistingClips env d).length ≤ 20 →
      (responseClips (popularClips env req d).response).length ≤ 20) := by
  rw [popularClips_upstream env req d cands hc hp hu]
  obtain ⟨nc, -, -, -, h4⟩ := fetchLoop_initial_spec env d cands
  simp only [responseClips]
  exact ⟨h4, fun h => by omega⟩

/-- C4: a candidate whose id is the id of a cached entry is never handed to
`downloadClipLocally`, and the returned `clips` holds as many entries with that id as the
cache catalog does. -/
theorem cached_candidate_not_downloaded (env : Env) (req : Request) (d : Disk)
    (cands : List Clip) (c : Clip)
    (hc : hasCredentials req) (hp : upstreamPath env req d)
    (hu : upstreamAnswer env req = .ok cands) (_hmem : c ∈ cands)
    (hdup : ∃ e ∈ getExistingClips env d, e.id = c.id) :
    (∀ call ∈ (popularClips env req d).downloadCalls, call.1.id ≠ c.id) ∧
    (responseClips (popularClips env req d).response).countP (fun r => r.id == c.id)
      = (getExistingClips env d).countP (fun r => r.id == c.id) := by
  rw [popularClips_upstream env req d cands hc hp hu]
  obtain ⟨nc, h1, h2, h3, -⟩ := fetchLoop_initial_spec env d cands
  have hnot : ∀ c' ∈ nc.map Prod.fst, c'.id ≠ c.id := by
    intro c' hc' hid
    have := (List.mem_filter.1 (h3.subset hc')).2
    obtain ⟨e, he, hee⟩ := hdup
    have hany : alreadyCached (getExistingClips env d) c' = true := by
      unfold alreadyCached
      rw [List.any_eq_true]
      exact ⟨e, he, by simp [hee, hid]⟩
    simp [hany] at this
  refine ⟨?_, ?_⟩
  · intro call hcall
    simp only [] at hcall
    rw [h1] at hcall
    exact hnot call.1 (List.mem_map_of_mem _ hcall)
  · simp only [responseClips]
    rw [h2, List.countP_append]
    have : (successes env nc).countP (fun r => r.id == c.id) = 0 := by
      rw [List.countP_eq_zero]
      intro r hr
      obtain ⟨c', hc', e⟩ := mem_successes env nc r hr
      have := hnot c' hc'
      simp [e, this]
    omega

/-- C7: on the upstream path the returned `clips` is the whole cache catalog, unchanged and
in its order, followed by the records of the successful downloads in the order in which
upstream listed their candidates, and the response carries `cached: false`. -/
theorem upstream_path_appends_to_catalog (env : Env) (req : Request) (d : Disk)
    (cands : List Clip)
    (hc : hasCredentials req) (hp : upstreamPath env req d)
    (hu : upstreamAnswer env req = .ok cands) :
    (popularClips env req d).response = .json
      { success := true
        username := req.username
        total := (getExistingClips env d ++
          successes env (popularClips env req d).downloadCalls).length
        downloaded := (getExistingClips env d ++
          successes env (popularClips env req d).downloadCalls).length
        clips := getExistingClips env d ++ successes env (popularClips env req d).downloadCalls
        cached := false } ∧
    ((popularClips env req d).downloadCalls.map Prod.fst).Sublist cands := by
  rw [popularClips_upstream env req d cands hc hp hu]
  obtain ⟨nc, h1, h2, h3, -⟩ := fetchLoop_initial_spec env d cands
  simp only []
  rw [h1, h2]
  exact ⟨rfl, h3.trans (List.filter_sublist _)⟩

/-- C8: when `downloadClipLocally` resolves with `success: false` or rejects for a candidate,
no record is added for it, the loop goes on with the candidates after it from the same
accumulator, and the request still answers `success: true`. -/
theorem failed_download_is_skipped (env : Env) (req : Request) (d : Disk)
    (pre post : List Clip) (c : Clip)
    (hc : hasCredentials req) (hp : upstreamPath env req d)
    (hu : upstreamAnswer env req = .ok (pre ++ c :: post))
    (hnew : alreadyCached (getExistingClips env d) c = false)
    (hroom : (fetchLoop env (getExistingClips env d) pre
      (initialState env d)).downloadedClips.length < 20)
    (hfail : (downloadClipLocally env c
        (fetchLoop env (getExistingClips env d) pre (initialState env d)).disk).1 = .failure ∨
      (downloadClipLocally env c
        (fetchLoop env (getExistingClips env d) pre (initialState env d)).disk).1 = .rejected) :
    (afterAttempt env c (fetchLoop env (getExistingClips env d) pre
        (initialState env d))).downloadedClips
      = (fetchLoop env (getExistingClips env d) pre (initialState env d)).downloadedClips ∧
    (popularClips env req d).response = .json
      { success := true
        username := req.username
        total := (fetchLoop env (getExistingClips env d) post
          (afterAttempt env c (fetchLoop env (getExistingClips env d) pre
            (initialState env d)))).downloadedClips.length
        downloaded := (fetchLoop env (getExistingClips env d) post
          (afterAttempt env c (fetchLoop env (getExistingClips env d) pre
            (initialState env d)))).downloadedClips.length
        clips := (fetchLoop env (getExistingClips env d) post
          (afterAttempt env c (fetchLoop env (getExistingClips env d) pre
            (initialState env d)))).downloadedClips
        cached := false } ∧
    (c, (downloadClipLocally env c
        (fetchLoop env (getExistingClips env d) pre (initialState env d)).disk).1)
      ∈ (popularClips env req d).downloadCalls := by
  rw [popularClips_upstream env req d (pre ++ c :: post) hc hp hu]
  rw [fetchLoop_append, fetchLoop_cons_attempt _ _ _ _ _ hnew hroom]
  refine ⟨?_, rfl, ?_⟩
  · unfold afterAttempt
    rcases hfail with h | h <;> simp [h, successes]
  · obtain ⟨nc, h1, -, -, -⟩ := fetchLoop_spec env (getExistingClips env d) post
      (afterAttempt env c (fetchLoop env (getExistingClips env d) pre (initialState env d)))
    simp only []
    rw [h1]
    simp [afterAttempt]

/-! ## The directory -/

theorem find_name_eq_of_mem (files : List FileEntry) (f : FileEntry)
    (hnd : (files.map FileEntry.name).Nodup) (hf : f ∈ files) :
    files.find? (fun g => g.name == f.name) = some f := by
  induction files with
  | nil => simp at hf
  | cons x xs ih =>
    rw [List.map_cons, List.nodup_cons] at hnd
    rw [List.find?_cons]
    rcases List.mem_cons.1 hf with h | h
    · subst h; simp
    · have hne : x.name ≠ f.name := fun e => hnd.1 (e ▸ List.mem_map_of_mem _ h)
      have hb : (x.name == f.name) = false := by simpa using hne
      rw [hb]
      exact ih hnd.2 h

theorem eq_of_name_eq (files : List FileEntry) (f g : FileEntry)
    (hnd : (files.map FileEntry.name).Nodup) (hf : f ∈ files) (hg : g ∈ files)
    (h : g.name = f.name) : g = f := by
  have h1 := find_name_eq_of_mem files f hnd hf
  have h2 := find_name_eq_of_mem files g hnd hg
  rw [h] at h2
  rw [h1] at h2
  exact (Option.some.inj h2).symm

theorem statSync_of_mem (d : Disk) (f : FileEntry) (hwf : d.WF) (hf : f ∈ d.files)
    (hs : f.statFails = false) : statSync d f.name = some f := by
  unfold statSync
  rw [find_name_eq_of_mem d.files f hwf hf]
  simp [hs]

theorem statSync_of_mem_fails (d : Disk) (f : FileEntry) (hwf : d.WF) (hf : f ∈ d.files)
    (hs : f.statFails = true) : statSync d f.name = none := by
  unfold statSync
  rw [find_name_eq_of_mem d.files f hwf hf]
  simp [hs]

theorem unlinkSync_of_mem (d : Disk) (f : FileEntry) (hwf : d.WF) (hf : f ∈ d.files)
    (hs : f.unlinkFails = false) :
    unlinkSync d f.name = some { d with files := d.files.filter (fun g => g.name != f.name) } := by
  unfold unlinkSync
  rw [find_name_eq_of_mem d.files f hwf hf]
  simp [hs]

theorem unlinkSync_of_mem_fails (d : Disk) (f : FileEntry) (hwf : d.WF) (hf : f ∈ d.files)
    (hs : f.unlinkFails = true) : unlinkSync d f.name = none := by
  unfold unlinkSync
  rw [find_name_eq_of_mem d.files f hwf hf]
  simp [hs]

/-! ## The cache index -/

theorem scanFiles_of_stat_ok (env : Env) (d : Disk) (hwf : d.WF) (l : List FileEntry)
    (hsub : ∀ f ∈ l, f ∈ d.files) (hok : ∀ f ∈ l, f.statFails = false) :
    scanFiles env d (l.map FileEntry.name)
      = some (l.map (fun f => cachedRecord env f.name f)) := by
  induction l with
  | nil => rfl
  | cons f rest ih =>
    rw [List.map_cons, scanFiles,
      statSync_of_mem d f hwf (hsub f (List.mem_cons_self _ _)) (hok f (List.mem_cons_self _ _)),
      ih (fun g hg => hsub g (List.mem_cons_of_mem _ hg))
        (fun g hg => hok g (List.mem_cons_of_mem _ hg))]
    rfl

theorem getExistingClips_eq (env : Env) (d : Disk) (hr : d.readable = true) (hwf : d.WF)
    (hstat : ∀ f ∈ d.files, endsWith f.name mp4Ext = true → f.statFails = false) :
    getExistingClips env d =
      ((d.files.filter (fun f => endsWith f.name mp4Ext)).map
        (fun f => cachedRecord env f.name f)).insertionSort newestFirst := by
  unfold getExistingClips readdirSync
  rw [if_pos hr]
  have e : (d.files.map FileEntry.name).filter (fun f => endsWith f mp4Ext)
      = (d.files.filter (fun f => endsWith f.name mp4Ext)).map FileEntry.name := by
    rw [List.filter_map]; rfl
  simp only [e]
  rw [scanFiles_of_stat_ok env d hwf _ (fun f hf => (List.mem_filter.1 hf).1)
    (fun f hf => hstat f (List.mem_filter.1 hf).1 (List.mem_filter.1 hf).2)]

theorem scanFiles_of_stat_throws (env : Env) (d : Disk) (hwf : d.WF) (l : List FileEntry)
    (hsub : ∀ f ∈ l, f ∈ d.files) (hbad : ∃ f ∈ l, f.statFails = true) :
    scanFiles env d (l.map FileEntry.name) = none := by
  induction l with
  | nil => obtain ⟨f, hf, -⟩ := hbad; simp at hf
  | cons f rest ih =>
    have hfd : f ∈ d.files := hsub f (List.mem_cons_self _ _)
    rw [List.map_cons, scanFiles]
    cases hs : f.statFails with
    | true => rw [statSync_of_mem_fails d f hwf hfd hs]
    | false =>
      rw [statSync_of_mem d f hwf hfd hs]
      have hrest : ∃ g ∈ rest, g.statFails = true := by
        obtain ⟨g, hg, hgs⟩ := hbad
        rcases List.mem_cons.1 hg with e | hg'
        · subst e; rw [hs] at hgs; exact absurd hgs (by decide)
        · exact ⟨g, hg', hgs⟩
      rw [ih (fun g hg => hsub g (List.mem_cons_of_mem _ hg)) hrest]

theorem getExistingClips_of_stat_throws (env : Env) (d : Disk) (hr : d.readable = true)
    (hwf : d.WF)
    (hbad : ∃ f ∈ d.files, endsWith f.name mp4Ext = true ∧ f.statFails = true) :
    getExistingClips env d = [] := by
  unfold getExistingClips readdirSync
  rw [if_pos hr]
  have e : (d.files.map FileEntry.name).filter (fun f => endsWith f mp4Ext)
      = (d.files.filter (fun f => endsWith f.name mp4Ext)).map FileEntry.name := by
    rw [List.filter_map]; rfl
  simp only [e]
  obtain ⟨f, hf, hm, hs⟩ := hbad
  rw [scanFiles_of_stat_throws env d hwf _ (fun g hg => (List.mem_filter.1 hg).1)
    ⟨f, List.mem_filter.2 ⟨hf, by simpa using hm⟩, hs⟩]

/-- C9 (amended): for a directory that can be listed, if `statSync` succeeds on every entry
whose name ends in `.mp4`, then `getExistingClips` returns one record per such entry and none
for any other entry, each record carrying the name and the creation time (`birthtime`) of its
file, ordered by creation time, newest first; if `statSync` throws on such an entry, the
function returns the empty array. -/
theorem getExistingClips_lists_mp4_newest_first (env : Env) (d : Disk)
    (hr : d.readable = true) (hwf : d.WF) :
    ((∀ f ∈ d.files, endsWith f.name mp4Ext = true → f.statFails = false) →
      (getExistingClips env d).Perm
        ((d.files.filter (fun f => endsWith f.name mp4Ext)).map
          (fun f => cachedRecord env f.name f)) ∧
      ((getExistingClips env d).map ClipRecord.localFile).Perm
        ((d.files.map FileEntry.name).filter (fun file => endsWith file mp4Ext)) ∧
      ((getExistingClips env d).map (fun r => (r.localFile, r.created))).Perm
        ((d.files.filter (fun f => endsWith f.name mp4Ext)).map
          (fun f => (f.name, f.birthtime))) ∧
      (getExistingClips env d).Sorted (fun a b => b.created ≤ a.created)) ∧
    ((∃ f ∈ d.files, endsWith f.name mp4Ext = true ∧ f.statFails = true) →
      getExistingClips env d = []) := by
  refine ⟨?_, getExistingClips_of_stat_throws env d hr hwf⟩
  intro hstat
  rw [getExistingClips_eq env d hr hwf hstat]
  have hperm := List.perm_insertionSort newestFirst
    ((d.files.filter (fun f => endsWith f.name mp4Ext)).map
      (fun f => cachedRecord env f.name f))
  refine ⟨hperm, ?_, ?_, List.sorted_insertionSort newestFirst _⟩
  · refine (hperm.map ClipRecord.localFile).trans ?_
    rw [List.map_map, List.filter_map]
    exact List.Perm.refl _
  · refine (hperm.map (fun r => (r.localFile, r.created))).trans ?_
    rw [List.map_map]
    exact List.Perm.refl _

/-! ## The retention sweep -/

theorem ageHours_gt_iff (now mtime : Int) :
    ageHours now mtime > 48 ↔ now - mtime > 48 * 3600000 := by
  unfold ageHours
  rw [gt_iff_lt, gt_iff_lt, lt_div_iff₀ (by norm_num)]
  have : (48 : ℚ) * (1000 * 60 * 60) = ((48 * 3600000 : Int) : ℚ) := by norm_num
  rw [this, Int.cast_lt]

theorem cleanupLoop_cons_other (now : Int) (file : JSString) (rest : List JSString)
    (d : Disk) (n : Nat) (hm : endsWith file mp4Ext = false) :
    cleanupLoop now (file :: rest) d n = cleanupLoop now rest d n := by
  rw [cleanupLoop]; simp [hm]

theorem cleanupLoop_cons_stat_throws (now : Int) (file : JSString) (rest : List JSString)
    (d : Disk) (n : Nat) (hm : endsWith file mp4Ext = true) (hs : statSync d file = none) :
    cleanupLoop now (file :: rest) d n = (d, none) := by
  rw [cleanupLoop]; simp [hm, hs]

theorem cleanupLoop_cons_young (now : Int) (file : JSString) (rest : List JSString)
    (d : Disk) (n : Nat) (stats : FileEntry) (hm : endsWith file mp4Ext = true)
    (hs : statSync d file = some stats) (ha : ¬ ageHours now stats.mtime > 48) :
    cleanupLoop now (file :: rest) d n = cleanupLoop now rest d n := by
  rw [cleanupLoop]; simp only [hm, hs, if_true, if_neg ha]

theorem cleanupLoop_cons_unlink_throws (now : Int) (file : JSString) (rest : List JSString)
    (d : Disk) (n : Nat) (stats : FileEntry) (hm : endsWith file mp4Ext = true)
    (hs : statSync d file = some stats) (ha : ageHours now stats.mtime > 48)
    (hu : unlinkSync d file = none) :
    cleanupLoop now (file :: rest) d n = (d, none) := by
  rw [cleanupLoop]; simp only [hm, hs, if_true, if_pos ha, hu]

theorem cleanupLoop_cons_deleted (now : Int) (file : JSString) (rest : List JSString)
    (d d1 : Disk) (n : Nat) (stats : FileEntry) (hm : endsWith file mp4Ext = true)
    (hs : statSync d file = some stats) (ha : ageHours now stats.mtime > 48)
    (hu : unlinkSync d file = some d1) :
    cleanupLoop now (file :: rest) d n = cleanupLoop now rest d1 (n + 1) := by
  rw [cleanupLoop]; simp only [hm, hs, if_true, if_pos ha, hu]

theorem cleanupLoop_append (now : Int) (a b : List JSString) (d : Disk) (n : Nat) :
    cleanupLoop now (a ++ b) d n =
      match cleanupLoop now a d n with
      | (d1, some n1) => cleanupLoop now b d1 n1
      | (d1, none) => (d1, none) := by
  induction a generalizing d n with
  | nil => rfl
  | cons file rest ih =>
    rw [List.cons_append]
    cases hm : endsWith file mp4Ext with
    | false =>
      rw [cleanupLoop_cons_other _ _ _ _ _ hm, cleanupLoop_cons_other _ _ _ _ _ hm]
      exact ih d n
    | true =>
      cases hs : statSync d file with
      | none =>
        rw [cleanupLoop_cons_stat_throws _ _ _ _ _ hm hs,
          cleanupLoop_cons_stat_throws _ _ _ _ _ hm hs]
      | some stats =>
        by_cases ha : ageHours now stats.mtime > 48
        · cases hu : unlinkSync d file with
          | none =>
            rw [cleanupLoop_cons_unlink_throws _ _ _ _ _ _ hm hs ha hu,
              cleanupLoop_cons_unlink_throws _ _ _ _ _ _ hm hs ha hu]
          | some d1 =>
            rw [cleanupLoop_cons_deleted _ _ _ _ _ _ _ hm hs ha hu,
              cleanupLoop_cons_deleted _ _ _ _ _ _ _ hm hs ha hu]
            exact ih d1 (n + 1)
        · rw [cleanupLoop_cons_young _ _ _ _ _ _ hm hs ha,
            cleanupLoop_cons_young _ _ _ _ _ _ hm hs ha]
          exact ih d n

theorem expired_iff (now : Int) (f : FileEntry) :
    expired now f = true ↔ endsWith f.name mp4Ext = true ∧ ageHours now f.mtime > 48 := by
  unfold expired
  rw [Bool.and_eq_true, decide_eq_true_iff, ageHours_gt_iff]

theorem sweptFiles_cons_keep (now : Int) (f : FileEntry) (rest files : List FileEntry)
    (hnd : (files.map FileEntry.name).Nodup) (hf : f ∈ files) (he : expired now f = false) :
    sweptFiles now (f :: rest) files = sweptFiles now rest files := by
  unfold sweptFiles
  apply List.filter_congr
  intro g hg
  by_cases hn : g.name = f.name
  · have := eq_of_name_eq files f g hnd hf hg hn
    subst this
    simp [he]
  · simp [hn]

theorem sweptFiles_cons_delete (now : Int) (f : FileEntry) (rest files : List FileEntry)
    (hnd : (files.map FileEntry.name).Nodup) (hf : f ∈ files) (he : expired now f = true) :
    sweptFiles now rest (files.filter (fun g => g.name != f.name))
      = sweptFiles now (f :: rest) files := by
  unfold sweptFiles
  rw [List.filter_filter]
  apply List.filter_congr
  intro g hg
  by_cases hn : g.name = f.name
  · have := eq_of_name_eq files f g hnd hf hg hn
    subst this
    simp [he]
  · simp [hn]

theorem cleanupLoop_ok (now : Int) (l : List FileEntry) (d : Disk) (n : Nat)
    (hwf : d.WF) (hsub : ∀ f ∈ l, f ∈ d.files) (hl : (l.map FileEntry.name).Nodup)
    (hok : ∀ f ∈ l, endsWith f.name mp4Ext = true →
      f.statFails = false ∧ (expired now f = true → f.unlinkFails = false)) :
    cleanupLoop now (l.map FileEntry.name) d n =
      ({ d with files := sweptFiles now l d.files }, some (n + l.countP (expired now))) := by
  induction l generalizing d n with
  | nil =>
    simp [cleanupLoop, sweptFiles]
  | cons f rest ih =>
    have hfd : f ∈ d.files := hsub f (List.mem_cons_self _ _)
    have hsub' : ∀ g ∈ rest, g ∈ d.files := fun g hg => hsub g (List.mem_cons_of_mem _ hg)
    have hok' : ∀ g ∈ rest, endsWith g.name mp4Ext = true →
        g.statFails = false ∧ (expired now g = true → g.unlinkFails = false) :=
      fun g hg => hok g (List.mem_cons_of_mem _ hg)
    rw [List.map_cons, List.nodup_cons] at hl
    rw [List.map_cons]
    have keep : expired now f = false →
        cleanupLoop now (rest.map FileEntry.name) d n =
          ({ d with files := sweptFiles now (f :: rest) d.files },
            some (n + (f :: rest).countP (expired now))) := by
      intro he
      rw [ih d n hwf hsub' hl.2 hok', sweptFiles_cons_keep now f rest d.files hwf hfd he,
        List.countP_cons]
      simp [he]
    cases hm : endsWith f.name mp4Ext with
    | false =>
      rw [cleanupLoop_cons_other _ _ _ _ _ hm]
      apply keep
      cases he : expired now f with
      | false => rfl
      | true => rw [((expired_iff now f).1 he).1] at hm; exact absurd hm (by decide)
    | true =>
      have hs := statSync_of_mem d f hwf hfd (hok f (List.mem_cons_self _ _) hm).1
      by_cases ha : ageHours now f.mtime > 48
      · have he : expired now f = true := (expired_iff now f).2 ⟨hm, ha⟩
        have hu := unlinkSync_of_mem d f hwf hfd ((hok f (List.mem_cons_self _ _) hm).2 he)
        rw [cleanupLoop_cons_deleted _ _ _ _ _ _ _ hm hs ha hu]
        have hwf1 : Disk.WF { d with files := d.files.filter (fun g => g.name != f.name) } := by
          unfold Disk.WF at hwf ⊢
          exact hwf.sublist ((List.filter_sublist _).map _)
        have hsub1 : ∀ g ∈ rest,
            g ∈ (Disk.mk d.readable (d.files.filter (fun g => g.name != f.name))).files := by
          intro g hg
          refine List.mem_filter.2 ⟨hsub' g hg, ?_⟩
          have : g.name ≠ f.name := fun e => hl.1 (e ▸ List.mem_map_of_mem _ hg)
          simpa using this
        rw [ih _ (n + 1) hwf1 hsub1 hl.2 hok']
        simp only []
        rw [sweptFiles_cons_delete now f rest d.files hwf hfd he, List.countP_cons]
        simp only [he, if_true]
        rw [Nat.add_assoc, Nat.add_comm 1]
      · rw [cleanupLoop_cons_young _ _ _ _ _ _ hm hs ha]
        apply keep
        cases he : expired now f with
        | false => rfl
        | true => exact absurd ((expired_iff now f).1 he).2 ha

theorem sweptFiles_self (now : Int) (files : List FileEntry) :
    sweptFiles now files files = files.filter (fun g => !expired now g) := by
  unfold sweptFiles
  apply List.filter_congr
  intro g hg
  have : g.name ∈ files.map FileEntry.name := List.mem_map_of_mem _ hg
  simp [this]

/-- C5: when no file system call fails, the cleanup removes exactly the `.mp4` files whose
modification time lies more than 48 hours before `now`, keeps every other entry in place and
reports the number of removed files; a file modified 49 hours ago goes, one modified 47 hours
ago stays. -/
theorem cleanup_removes_exactly_expired (now : Int) (d : Disk)
    (hr : d.readable = true) (hwf : d.WF)
    (hok : ∀ f ∈ d.files, endsWith f.name mp4Ext = true →
      f.statFails = false ∧ (expired now f = true → f.unlinkFails = false)) :
    cleanup now d =
      ({ d with files := d.files.filter (fun f => !expired now f) },
        .ok (d.files.countP (expired now))) ∧
    (∀ f ∈ d.files, endsWith f.name mp4Ext = true → f.mtime = now - 49 * 3600000 →
      f ∉ (cleanup now d).1.files) ∧
    (∀ f ∈ d.files, f.mtime = now - 47 * 3600000 → f ∈ (cleanup now d).1.files) := by
  have e : cleanup now d =
      ({ d with files := d.files.filter (fun f => !expired now f) },
        .ok (d.files.countP (expired now))) := by
    unfold cleanup readdirSync
    rw [if_pos hr]
    simp only []
    rw [cleanupLoop_ok now d.files d 0 hwf (fun f hf => hf) hwf hok, sweptFiles_self]
    simp
  rw [e]
  refine ⟨rfl, ?_, ?_⟩
  · intro f _ hm ht hmem
    have := (List.mem_filter.1 hmem).2
    have he : expired now f = true := by
      unfold expired
      rw [Bool.and_eq_true, decide_eq_true_iff]
      exact ⟨hm, by rw [ht]; omega⟩
    simp [he] at this
  · intro f hf ht
    refine List.mem_filter.2 ⟨hf, ?_⟩
    have he : expired now f = false := by
      unfold expired
      rw [Bool.and_eq_false_iff, decide_eq_false_iff_not]
      exact Or.inr (by rw [ht]; omega)
    simp [he]

/-- C6 (amended): when `statSync` or `unlinkSync` throws for one `.mp4` file, the sweep stops at
that file: the expired files listed before it are gone, the file itself and every file after it
stay, and the handler answers with status 500 instead of a count. -/
theorem cleanup_stops_at_first_error (now : Int) (d : Disk) (pre post : List FileEntry)
    (f : FileEntry) (hr : d.readable = true) (hwf : d.WF)
    (hfiles : d.files = pre ++ f :: post)
    (hok : ∀ g ∈ pre, endsWith g.name mp4Ext = true →
      g.statFails = false ∧ (expired now g = true → g.unlinkFails = false))
    (hm : endsWith f.name mp4Ext = true)
    (hbad : f.statFails = true ∨ (expired now f = true ∧ f.unlinkFails = true)) :
    cleanup now d =
      ({ d with files := pre.filter (fun g => !expired now g) ++ f :: post },
        .serverError) := by
  have hnd : ((pre ++ f :: post).map FileEntry.name).Nodup := by
    have := hwf; unfold Disk.WF at this; rwa [hfiles] at this
  have hpre : (pre.map FileEntry.name).Nodup :=
    hnd.sublist ((List.sublist_append_left pre (f :: post)).map _)
  have hdisj : ∀ g ∈ f :: post, g.name ∉ pre.map FileEntry.name := by
    intro g hg hmem
    rw [List.map_append, List.nodup_append] at hnd
    exact hnd.2.2 hmem (List.mem_map_of_mem _ hg)
  have hswept : sweptFiles now pre d.files
      = pre.filter (fun g => !expired now g) ++ f :: post := by
    rw [hfiles]
    unfold sweptFiles
    rw [List.filter_append]
    congr 1
    · apply List.filter_congr
      intro g hg
      have : g.name ∈ pre.map FileEntry.name := List.mem_map_of_mem _ hg
      simp [this]
    · rw [List.filter_eq_self]
      intro g hg
      simp [hdisj g hg]
  have hloop := cleanupLoop_ok now pre d 0 hwf
    (fun g hg => by rw [hfiles]; exact List.mem_append_left _ hg) hpre hok
  rw [hswept] at hloop
  have hwf1 : Disk.WF { d with files := pre.filter (fun g => !expired now g) ++ f :: post } := by
    unfold Disk.WF
    simp only []
    refine hnd.sublist (List.Sublist.map _ ?_)
    exact (List.filter_sublist _).append (List.Sublist.refl _)
  have hf1 : f ∈ (Disk.mk d.readable
      (pre.filter (fun g => !expired now g) ++ f :: post)).files :=
    List.mem_append_right _ (List.mem_cons_self _ _)
  unfold cleanup readdirSync
  rw [if_pos hr]
  simp only [hfiles, List.map_append, List.map_cons]
  rw [cleanupLoop_append, hloop]
  simp only [Nat.zero_add]
  rcases hbad with hb | ⟨he, hb⟩
  · rw [cleanupLoop_cons_stat_throws _ _ _ _ _ hm (statSync_of_mem_fails _ f hwf1 hf1 hb)]
  · cases hs : f.statFails with
    | true =>
      rw [cleanupLoop_cons_stat_throws _ _ _ _ _ hm (statSync_of_mem_fails _ f hwf1 hf1 hs)]
    | false =>
      rw [cleanupLoop_cons_unlink_throws _ _ _ _ _ f hm (statSync_of_mem _ f hwf1 hf1 hs)
        ((expired_iff now f).1 he).2 (unlinkSync_of_mem_fails _ f hwf1 hf1 hb)]

/-! ## File names -/

/-- C10: for every title the sanitized title has at most 30 code units, each an ASCII letter,
a digit, a hyphen or an underscore, so no white space, dot or path separator remains, and it is
made of code units of the title only.  The other code units are stripped: they do not change
the result, while a title of letters, digits, hyphens and underscores is kept up to its first 30
code units.  White space runs are collapsed: a run may be replaced by one space without
changing the result, two words separated by a run come out joined by one underscore, and
white space around the words is dropped. -/
theorem safeTitle_is_safe :
    (∀ title : JSString,
      (safeTitle title).length ≤ 30 ∧
      (∀ c ∈ safeTitle title, (97 ≤ c ∧ c ≤ 122) ∨ (65 ≤ c ∧ c ≤ 90) ∨ (48 ≤ c ∧ c ≤ 57) ∨
        c = 45 ∨ c = 95) ∧
      (∀ c ∈ safeTitle title, isWs c = false ∧ c ≠ dot ∧ c ≠ slash ∧ c ≠ backslash) ∧
      (safeTitle title).Sublist (wsToUnderscore title) ∧
      List.Chain' (fun x y => ¬ (isWs x = true ∧ isWs y = true))
        (collapseWs (title.filter isSafeChar))) ∧
    (∀ title : JSString, safeTitle (title.filter isSafeChar) = safeTitle title) ∧
    (∀ title : JSString, (∀ c ∈ title, isWordChar c = true) →
      safeTitle title = title.take 30) ∧
    (∀ u run v : JSString, run ≠ [] → (∀ c ∈ run, isWs c = true) →
      safeTitle (u ++ run ++ v) = safeTitle (u ++ [space] ++ v)) ∧
    (∀ r0 u r1 v r2 : JSString,
      (∀ c ∈ u, isWordChar c = true) → (∀ c ∈ v, isWordChar c = true) →
      u ≠ [] → v ≠ [] → r1 ≠ [] →
      (∀ c ∈ r0, isWs c = true) → (∀ c ∈ r1, isWs c = true) → (∀ c ∈ r2, isWs c = true) →
      u.length + v.length + 2 ≤ 30 →
      safeTitle (r0 ++ u ++ r1 ++ v ++ r2) = u ++ [underscore] ++ v) ∧
    (∀ r0 u r2 : JSString,
      (∀ c ∈ u, isWordChar c = true) → u ≠ [] →
      (∀ c ∈ r0, isWs c = true) → (∀ c ∈ r2, isWs c = true) →
      u.length + 1 ≤ 30 →
      safeTitle (r0 ++ u ++ r2) = u) := by
  refine ⟨?_, safeTitle_filter, safeTitle_of_words, safeTitle_run, safeTitle_two_words,
    safeTitle_one_word⟩
  intro title
  have hcls : ∀ c ∈ safeTitle title, (97 ≤ c ∧ c ≤ 122) ∨ (65 ≤ c ∧ c ≤ 90) ∨
      (48 ≤ c ∧ c ≤ 57) ∨ c = 45 ∨ c = 95 := by
    intro c hc
    rcases mem_safeTitle title c hc with h | h | h
    · unfold isAlnum at h
      simp only [Bool.or_eq_true, Bool.and_eq_true, decide_eq_true_eq] at h
      tauto
    · exact Or.inr (Or.inr (Or.inr (Or.inl h)))
    · exact Or.inr (Or.inr (Or.inr (Or.inr h)))
  refine ⟨length_safeTitle title, hcls, ?_, safeTitle_sublist title,
    (collapseWsAux_chain false _).1⟩
  intro c hc
  have h := hcls c hc
  refine ⟨?_, ?_, ?_, ?_⟩
  · unfold isWs
    simp only [Bool.or_eq_false_iff, Bool.and_eq_false_iff, decide_eq_false_iff_not,
      beq_eq_false_iff_ne, ne_eq]
    omega
  · unfold dot; omega
  · unfold slash; omega
  · unfold backslash; omega

/-- Scenario for C10: outputs of the sanitizer on titles with stripped code units, white
space runs, outer white space and more than 30 code units. -/
theorem safeTitle_is_safe_witness :
    safeTitle (str "a   b") = str "a_b" ∧
    safeTitle (str "  Twitch" ++ [space, 9, space] ++ str "clip ") = str "Twitch_clip" ∧
    safeTitle (str " solo ") = str "solo" ∧
    safeTitle (str "Some Clip!") = str "Some_Clip" ∧
    safeTitle (str "a/b:c.d") = str "abcd" ∧
    safeTitle (str "0123456789012345678901234567890123456789")
      = str "012345678901234567890123456789" ∧
    safeTitle (str "x" ++ [9, 10, 0x2003] ++ str "y") = safeTitle (str "x" ++ [space] ++ str "y") ∧
    safeTitle (str "") = str "" :=
  ⟨safeTitle_is_safe.2.2.2.2.1 [] (str "a") (str "   ") (str "b") []
      (by decide) (by decide) (by decide) (by decide) (by decide) (by decide) (by decide)
      (by decide) (by decide),
    safeTitle_is_safe.2.2.2.2.1 (str "  ") (str "Twitch") [space, 9, space] (str "clip") (str " ")
      (by decide) (by decide) (by decide) (by decide) (by decide) (by decide) (by decide)
      (by decide) (by decide),
    safeTitle_is_safe.2.2.2.2.2 (str " ") (str "solo") (str " ")
      (by decide) (by decide) (by decide) (by decide) (by decide),
    by decide, by decide,
    safeTitle_is_safe.2.2.1 (str "0123456789012345678901234567890123456789") (by decide),
    safeTitle_is_safe.2.2.2.1 (str "x") [9, 10, 0x2003] (str "y") (by decide) (by decide),
    by decide⟩

/-- C3 (failing input): for the clip id `FunnyClip-Ab12` the download names its file
`FunnyClip-Ab12-Some_Clip.mp4`, and the cache scan parses that name to the id `FunnyClip`. -/
theorem parseClipId_cuts_hyphenated_id :
    clipFilename (str "FunnyClip-Ab12") (str "Some Clip!") = str "FunnyClip-Ab12-Some_Clip.mp4" ∧
    parseClipId (clipFilename (str "FunnyClip-Ab12") (str "Some Clip!")) = str "FunnyClip" ∧
    parseClipId (clipFilename (str "FunnyClip-Ab12") (str "Some Clip!"))
      ≠ str "FunnyClip-Ab12" := by
  decide

/-! ## Scenarios -/

/-- Scenario for C1: twelve cached clips, no `forceRefresh`: no upstream call, no download. -/
theorem cache_hit_served_without_upstream_witness :
    hasCredentials demoReq ∧ 10 ≤ (getExistingClips demoEnv (demoDiskOf 12)).length ∧
    (popularClips demoEnv demoReq (demoDiskOf 12)).upstreamCalls = 0 ∧
    (popularClips demoEnv demoReq (demoDiskOf 12)).downloadCalls = [] ∧
    (responseClips (popularClips demoEnv demoReq (demoDiskOf 12)).response).length
      = min (getExistingClips demoEnv (demoDiskOf 12)).length 20 :=
  have h := cache_hit_served_without_upstream demoEnv demoReq (demoDiskOf 12)
    (by decide) (by decide) (by decide)
  ⟨by decide, by decide, h.1, h.2.1, h.2.2.2.2⟩

/-- C2 (counterexample): with 21 cached clips and `forceRefresh=true` the request takes the
upstream path and returns 21 clips. -/
theorem upstream_path_over_twenty :
    hasCredentials demoForceReq ∧ upstreamPath demoEnv demoForceReq (demoDiskOf 21) ∧
    upstreamAnswer demoEnv demoForceReq = .ok demoCands ∧
    (responseClips (popularClips demoEnv demoForceReq (demoDiskOf 21)).response).length = 21 ∧
    ¬ (responseClips (popularClips demoEnv demoForceReq (demoDiskOf 21)).response).length
      ≤ 20 := by
  refine ⟨by decide, by decide, rfl, by decide, by decide⟩

/-- Scenario for C2 (amended): three cached clips and five candidates. -/
theorem upstream_path_length_bound_witness :
    hasCredentials demoReq ∧ upstreamPath demoEnv demoReq demoDisk3 ∧
    (responseClips (popularClips demoEnv demoReq demoDisk3).response).length
      ≤ max 20 (getExistingClips demoEnv demoDisk3).length :=
  ⟨by decide, by decide,
    (upstream_path_length_bound demoEnv demoReq demoDisk3 demoCands
      (by decide) (by decide) rfl).1⟩

/-- Scenario for C4: the candidate `B` is cached; it is not downloaded and not duplicated. -/
theorem cached_candidate_not_downloaded_witness :
    demoClip "B" "Second" "u3" ∈ demoCands ∧
    (∃ e ∈ getExistingClips demoEnv demoDisk3, e.id = (demoClip "B" "Second" "u3").id) ∧
    (∀ call ∈ (popularClips demoEnv demoReq demoDisk3).downloadCalls,
      call.1.id ≠ (demoClip "B" "Second" "u3").id) ∧
    (responseClips (popularClips demoEnv demoReq demoDisk3).response).countP
        (fun r => r.id == (demoClip "B" "Second" "u3").id)
      = (getExistingClips demoEnv demoDisk3).countP
        (fun r => r.id == (demoClip "B" "Second" "u3").id) :=
  have h := cached_candidate_not_downloaded demoEnv demoReq demoDisk3 demoCands
    (demoClip "B" "Second" "u3") (by decide) (by decide) rfl (by decide) (by decide)
  ⟨by decide, by decide, h.1, h.2⟩

/-- Scenario for C7: three cached clips, then the records of the successful downloads. -/
theorem upstream_path_appends_to_catalog_witness :
    hasCredentials demoReq ∧ upstreamPath demoEnv demoReq demoDisk3 ∧
    responseClips (popularClips demoEnv demoReq demoDisk3).response
      = getExistingClips demoEnv demoDisk3 ++
        successes demoEnv (popularClips demoEnv demoReq demoDisk3).downloadCalls ∧
    ((popularClips demoEnv demoReq demoDisk3).downloadCalls.map Prod.fst).Sublist demoCands :=
  have h := upstream_path_appends_to_catalog demoEnv demoReq demoDisk3 demoCands
    (by decide) (by decide) rfl
  ⟨by decide, by decide, by rw [h.1]; rfl, h.2⟩

/-- Scenario for C8: the download of `N2` fails; `N1` before it and `N3` after it are returned. -/
theorem failed_download_is_skipped_witness :
    alreadyCached (getExistingClips demoEnv demoDisk3) (demoClip "N2" "Broken" "bad") = false ∧
    (downloadClipLocally demoEnv (demoClip "N2" "Broken" "bad")
      (fetchLoop demoEnv (getExistingClips demoEnv demoDisk3) (demoCands.take 3)
        (initialState demoEnv demoDisk3)).disk).1 = .failure ∧
    (demoClip "N2" "Broken" "bad", DownloadOutcome.failure)
      ∈ (popularClips demoEnv demoReq demoDisk3).downloadCalls ∧
    ((responseClips (popularClips demoEnv demoReq demoDisk3).response).map ClipRecord.id)
      = [str "B", str "C", str "A", str "N1", str "N3"] :=
  have h := failed_download_is_skipped demoEnv demoReq demoDisk3 (demoCands.take 3)
    [demoClip "N3" "Third one" "u5"] (demoClip "N2" "Broken" "bad")
    (by decide) (by decide) rfl (by decide) (by decide) (Or.inl (by decide))
  ⟨by decide, by decide, h.2.2, by rw [h.2.1]; decide⟩

/-- C9 (counterexample): the directory can be listed and holds two `.mp4` entries, `statSync`
throws on one of them, and `getExistingClips` returns no record at all. -/
theorem getExistingClips_empty_on_stat_error :
    readdirSync demoDanglingDisk = some [str "A-one.mp4", str "B-gone.mp4"] ∧
    (demoDanglingDisk.files.map FileEntry.name).filter (fun file => endsWith file mp4Ext)
      = [str "A-one.mp4", str "B-gone.mp4"] ∧
    getExistingClips demoEnv demoDanglingDisk = [] ∧
    ¬ ((getExistingClips demoEnv demoDanglingDisk).map ClipRecord.localFile).Perm
      ((demoDanglingDisk.files.map FileEntry.name).filter
        (fun file => endsWith file mp4Ext)) := by
  decide

/-- Scenario for C9 (amended): three clips and a text file; the clips come back newest first,
each with the creation time of its file. -/
theorem getExistingClips_lists_mp4_newest_first_witness :
    demoDisk3.readable = true ∧ demoDisk3.WF ∧
    (∀ f ∈ demoDisk3.files, endsWith f.name mp4Ext = true → f.statFails = false) ∧
    ((getExistingClips demoEnv demoDisk3).map ClipRecord.localFile).Perm
      ((demoDisk3.files.map FileEntry.name).filter (fun file => endsWith file mp4Ext)) ∧
    (getExistingClips demoEnv demoDisk3).Sorted (fun a b => b.created ≤ a.created) ∧
    (getExistingClips demoEnv demoDisk3).map (fun r => (r.localFile, r.created))
      = [(str "B-two.mp4", 30), (str "C-three.mp4", 20), (str "A-one.mp4", 10)] ∧
    getExistingClips demoEnv demoDanglingDisk = [] :=
  have h := (getExistingClips_lists_mp4_newest_first demoEnv demoDisk3
    (by decide) (by decide)).1 (by decide)
  ⟨by decide, by decide, by decide, h.2.1, h.2.2.2, by decide,
    (getExistingClips_lists_mp4_newest_first demoEnv demoDanglingDisk
      (by decide) (by decide)).2 (by decide)⟩

/-- Scenario for C5: the clip modified 49 hours ago goes, the one modified 47 hours ago and the
text file stay, one deletion is reported. -/
theorem cleanup_removes_exactly_expired_witness :
    demoSweepDisk.readable = true ∧ demoSweepDisk.WF ∧
    cleanup (100 * hourMs) demoSweepDisk =
      ({ demoSweepDisk with
          files := [plainFile (str "B-new.mp4") 0 (53 * hourMs),
            plainFile (str "old.txt") 0 (40 * hourMs)] },
        .ok 1) :=
  have h := cleanup_removes_exactly_expired (100 * hourMs) demoSweepDisk
    (by decide) (by decide) (by decide)
  ⟨by decide, by decide, by rw [h.1]; decide⟩

/-- C6 (counterexample): `statSync` throws for the first clip; the sweep does not go on to the
60 hours old second clip, which stays, and the handler answers with status 500. -/
theorem cleanup_fails_on_file_error :
    demoBrokenDisk.readable = true ∧ demoBrokenDisk.WF ∧
    expired (100 * hourMs) (plainFile (str "B-old.mp4") 0 (40 * hourMs)) = true ∧
    cleanup (100 * hourMs) demoBrokenDisk = (demoBrokenDisk, .serverError) ∧
    plainFile (str "B-old.mp4") 0 (40 * hourMs)
      ∈ (cleanup (100 * hourMs) demoBrokenDisk).1.files := by
  decide

/-- Scenario for C6 (amended): the first clip is removed, `unlinkSync` throws for the second,
the third stays although it is expired, and the answer is status 500. -/
theorem cleanup_stops_at_first_error_witness :
    demoStuckDisk.readable = true ∧ demoStuckDisk.WF ∧
    cleanup (100 * hourMs) demoStuckDisk =
      ({ demoStuckDisk with
          files := [{ plainFile (str "B-stuck.mp4") 0 (40 * hourMs) with unlinkFails := true },
            plainFile (str "C-old.mp4") 0 (40 * hourMs)] },
        .serverError) :=
  ⟨by decide, by decide,
    cleanup_stops_at_first_error (100 * hourMs) demoStuckDisk
      [plainFile (str "A-old.mp4") 0 (40 * hourMs)]
      [plainFile (str "C-old.mp4") 0 (40 * hourMs)]
      { plainFile (str "B-stuck.mp4") 0 (40 * hourMs) with unlinkFails := true }
      (by decide) (by decide) rfl (by decide) (by decide) (Or.inr (by decide))⟩

end TwitchClips
